import Mathlib

/-!
Shallow embedding of `src/2310depot.c` (a TCP "depot" inventory server) and
proofs about it.  The embedding follows the C source function by function:

* `parseLine` is the colon-splitting loop of `validate_input` (lines 415-446),
  including its quirk that the character immediately following a `:` is copied
  into the next field unconditionally, so that `"A::B"` parses into the two
  fields `["A", ":B"]` with `numColons = 1`.
* `strtolParse` / `verify_num` / `verify_name` / `is_amount_valid` /
  `is_name_valid` model the string validators.  Machine-integer overflow and
  the `long`-to-`int` truncation are not exercised by any claim and are
  idealised by `Int`.
* The handler functions (`connect_message`, `im_message`, `deliver_message`,
  `withdraw_message`, `transfer_message`, `defer_message`, `execute_message`)
  are translated directly; the process-wide `Depot` state and the per-session
  `ThreadInfo` state are merged into one record `SessionState`, since every
  claim concerns a single session.  Outbound network effects are recorded in
  the ghost fields `sent` and `dials`; the ghost field `dispatched` logs the
  index of every deferred entry re-fed to the dispatcher by `execute_message`.
* `runF` is `validate_input` plus `do_input`; the fuel argument bounds the
  nesting depth of `Execute` re-dispatch (the C code recurses).
* `clientLoopF` is the read loop of `client_connections` (lines 393-401)
  with its handshake liveness gate.
* `gather_resources` / `snapshotLines` model startup argument processing and
  the SIGHUP report of `sigcatcher`.
-/

/-- Resource record: `typedef struct { char* resource; int amount; } Resource`. -/
structure Resource where
  resource : String
  amount : Int
deriving DecidableEq, Repr

/-- Neighbour record, keeping the fields the logic reads (name and port);
the two `FILE*` channels are not part of the state proper. -/
structure NeighbourM where
  name : String
  portNo : Int
deriving DecidableEq, Repr

/-- Deferred-command record: `typedef struct { long key; char* args; bool complete; } Defer`. -/
structure DeferM where
  key : Int
  args : String
  complete : Bool
deriving DecidableEq, Repr

/-- Merged `Depot` plus `ThreadInfo` state for one session, with ghost logs
`sent` (Transfer messages written to a neighbour), `dials` (ports passed to
`new_connection` by `connect_message`) and `dispatched` (indices of deferred
entries re-fed to the dispatcher by `execute_message`). -/
structure SessionState where
  resources : List Resource
  neighbours : List NeighbourM
  numColons : Nat
  deferred : List DeferM
  imRecieved : Bool
  imSent : Bool
  sent : List (String × String)
  dials : List Int
  dispatched : List Nat
deriving DecidableEq, Repr

/-- The `while (input[c] != '\n')` field-splitting loop of `validate_input`.
`cur` is the field currently being filled.  Note the faithful quirk: after a
colon terminates a field, the next character is copied into the new field
without being tested for `:` first, so adjacent colons merge.  Unwritten
`malloc`ed field slots are modelled as the empty string. -/
def parseAux : List Char → List Char → List String × Nat
  | [], cur => ([String.mk cur], 0)
  | ch :: rest, cur =>
    if ch = '\n' then ([String.mk cur], 0)
    else if ch = ':' then
      match rest with
      | [] => ([String.mk cur, ""], 1)
      | d :: rest2 =>
        if d = '\n' then ([String.mk cur, ""], 1)
        else
          let r := parseAux rest2 [d]
          (String.mk cur :: r.1, r.2 + 1)
    else parseAux rest (cur ++ [ch])

/-- Split one received line into its fields and its colon count, exactly as
`validate_input` fills `args` and `numColons`. -/
def parseLine (s : String) : List String × Nat := parseAux s.data []

/-- Characters accepted by `isspace` in the C locale, as skipped by `strtol`. -/
def isSpaceC (c : Char) : Bool :=
  c = ' ' ∨ c = '\t' ∨ c = '\n' ∨ c = '\r' ∨ c = '\x0b' ∨ c = '\x0c'

/-- Digit-consuming loop of `strtol`: accumulate the value, stop at the first
non-digit, return the value and the unconsumed remainder. -/
def digitsVal : Int → List Char → Int × List Char
  | acc, [] => (acc, [])
  | acc, c :: rest =>
    if c.isDigit then digitsVal (10 * acc + ((c.toNat : Int) - 48)) rest
    else (acc, c :: rest)

/-- `strtol(s, &ptr, 10)`: skip whitespace, read an optional sign and digits;
on no conversion the result is `0` and `ptr` is the whole input. -/
def strtolParse (s : String) : Int × String :=
  let l1 := s.data.dropWhile (fun c => isSpaceC c)
  let sl :=
    match l1 with
    | '-' :: r => ((-1 : Int), r)
    | '+' :: r => ((1 : Int), r)
    | r => ((1 : Int), r)
  match sl.2 with
  | [] => (0, s)
  | c :: _ =>
    if c.isDigit then
      let vr := digitsVal 0 sl.2
      (sl.1 * vr.1, String.mk vr.2)
    else (0, s)

/-- `atoi` as used inside `is_amount_valid` (same conversion as `strtol`). -/
def atoiModel (s : String) : Int := (strtolParse s).1

/-- `verify_num` (lines 491-500): the parsed value if the whole string was
consumed and the value is strictly positive, otherwise `0`. -/
def verify_num (s : String) : Int :=
  let vr := strtolParse s
  if vr.2 = "" ∧ 0 < vr.1 then vr.1 else 0

/-- Characters `" \n\r:"` forbidden in good and depot names. -/
def badNameChar (c : Char) : Bool :=
  c = ' ' ∨ c = '\n' ∨ c = '\r' ∨ c = ':'

/-- `verify_name` (lines 510-525): the input if non-empty and free of the
forbidden characters, the empty string otherwise. -/
def verify_name (s : String) : String :=
  if s.length = 0 then ""
  else if s.data.any (fun c => badNameChar c) then "" else s

/-- `is_amount_valid` (lines 210-218): `none` models `exit(3)`.  The C guard
is `!(atoi(amount) && (output >= 0) && (strlen(ptr) == 0))`: the `atoi`
truthiness test makes the string `"0"` exit even though `output >= 0`
admits zero. -/
def is_amount_valid (s : String) : Option Int :=
  let vr := strtolParse s
  if atoiModel s ≠ 0 ∧ 0 ≤ vr.1 ∧ vr.2 = "" then some vr.1 else none

/-- `is_name_valid` (lines 185-200): `Except.error 1` models the usage exit,
`Except.error 2` the invalid-name exit. -/
def is_name_valid (s : String) : Except Nat String :=
  if s.length = 0 then .error 1
  else if s.data.any (fun c => badNameChar c) then .error 2
  else .ok s

/-- `gather_resources` (lines 229-241) applied to the argv entries after the
depot name: alternating good/qty pairs are validated in order and collected;
a trailing unpaired good is name-checked but not recorded (the C code sets
`loot[j].resource` without ever incrementing `j`).  `Except.error e` models
`exit(e)` raised by the validators. -/
def gather_resources : List String → Except Nat (List Resource)
  | [] => .ok []
  | [n] => do
    let _ ← is_name_valid n
    .ok []
  | n :: q :: rest => do
    let nm ← is_name_valid n
    let amt ← match is_amount_valid q with
      | some a => Except.ok a
      | none => Except.error 3
    let tl ← gather_resources rest
    .ok (⟨nm, amt⟩ :: tl)

/-- The search loop shared by `deliver_message` and `withdraw_message`:
apply `f` to the amount of the first entry named `good` (the `!delivered`
flag makes later duplicates untouched); report whether a match was found. -/
def updateFirst (good : String) (f : Int → Int) : List Resource → List Resource × Bool
  | [] => ([], false)
  | r :: rest =>
    if r.resource = good then (⟨r.resource, f r.amount⟩ :: rest, true)
    else
      let t := updateFirst good f rest
      (r :: t.1, t.2)

/-- Amount of the first inventory entry named `g`, `0` when there is none. -/
def firstAmt : List Resource → String → Int
  | [], _ => 0
  | r :: rest, g => if r.resource = g then r.amount else firstAmt rest g

/-- `connect_message` (lines 584-594): spawn a dial of the given port when it
verifies and this session has completed its handshake.  Note: no colon-count
check. -/
def connect_message (args : List String) (s : SessionState) : SessionState :=
  let portNum := verify_num (args.getD 1 "")
  if portNum ≠ 0 ∧ s.imRecieved = true then
    {s with dials := s.dials ++ [portNum]}
  else s

/-- `im_message` (lines 606-634): register the peer unless the name or the
port is already present; the `imRecieved` flag is set only on a successful
registration. -/
def im_message (args : List String) (s : SessionState) : SessionState :=
  let portNum := verify_num (args.getD 1 "")
  let depotName := verify_name (args.getD 2 "")
  if ¬(portNum = 0 ∨ depotName = "") ∧ s.numColons = 2 ∧ s.imRecieved = false then
    if s.neighbours.any (fun nb => nb.name = depotName ∨ nb.portNo = portNum) then s
    else
      {s with neighbours := s.neighbours ++ [⟨depotName, portNum⟩], imRecieved := true}
  else s

/-- `deliver_message` (lines 644-665): add to the first entry of the good, or
append a new entry.  Guarded by a positive amount and exactly two colons. -/
def deliver_message (args : List String) (s : SessionState) : SessionState :=
  let amount := verify_num (args.getD 1 "")
  let good := verify_name (args.getD 2 "")
  if 0 < amount ∧ s.numColons = 2 then
    let t := updateFirst good (fun a => a + amount) s.resources
    if t.2 then {s with resources := t.1}
    else {s with resources := s.resources ++ [⟨good, amount⟩]}
  else s

/-- `withdraw_message` (lines 675-696): subtract from the first entry of the
good, or append a new entry holding `0 - amount`. -/
def withdraw_message (args : List String) (s : SessionState) : SessionState :=
  let amount := verify_num (args.getD 1 "")
  let good := verify_name (args.getD 2 "")
  if 0 < amount ∧ s.numColons = 2 then
    let t := updateFirst good (fun a => a - amount) s.resources
    if t.2 then {s with resources := t.1}
    else {s with resources := s.resources ++ [⟨good, 0 - amount⟩]}
  else s

/-- First neighbour whose name matches, as scanned by `transfer_message`
with its `found` flag. -/
def findNeighbour (nm : String) : List NeighbourM → Option NeighbourM
  | [] => none
  | nb :: rest => if nb.name = nm then some nb else findNeighbour nm rest

/-- `transfer_message` (lines 707-730): unconditionally set `numColons` to 2,
then, if the target name is a neighbour, withdraw locally (through
`withdraw_message` on a rebuilt argument vector carrying only fields 1 and 2)
and send a `Deliver` line to that neighbour.  No colon-count check. -/
def transfer_message (args : List String) (s : SessionState) : SessionState :=
  let msgArgs := ["", args.getD 1 "", args.getD 2 ""]
  let s1 := {s with numColons := 2}
  match findNeighbour (args.getD 3 "") s1.neighbours with
  | none => s1
  | some nb =>
    let s2 := withdraw_message msgArgs s1
    {s2 with
      sent := s2.sent ++ [(nb.name, "Deliver:" ++ args.getD 1 "" ++ ":" ++ args.getD 2 "" ++ "\n")]}

/-- Count of the non-empty argument slots from index 2 on, as scanned by the
first loop of `defer_creator`. -/
def countNonempty (l : List String) : Nat := (l.filter (fun t => t ≠ "")).length

/-- `defer_creator` (lines 808-836): rebuild the inner command from argument
slots 2-4 (resp. 2-5) when exactly three (resp. four) of the slots from index
2 on are non-empty; otherwise the empty string. -/
def defer_creator (args : List String) : String :=
  let numArgs := countNonempty (args.drop 2)
  if numArgs = 3 then
    args.getD 2 "" ++ ":" ++ args.getD 3 "" ++ ":" ++ args.getD 4 "" ++ "\n"
  else if numArgs = 4 then
    args.getD 2 "" ++ ":" ++ args.getD 3 "" ++ ":" ++ args.getD 4 "" ++ ":" ++
      args.getD 5 "" ++ "\n"
  else ""

/-- `defer_message` (lines 740-750): store the rebuilt inner command with a
fully parsed positive key and `complete = false`. -/
def defer_message (args : List String) (s : SessionState) : SessionState :=
  let defArgs := defer_creator args
  let kp := strtolParse (args.getD 1 "")
  if kp.2 = "" ∧ 0 < kp.1 ∧ defArgs ≠ "" then
    {s with deferred := s.deferred ++ [⟨kp.1, defArgs, false⟩]}
  else s

/-- The collection loop of `execute_message` (lines 767-773) carrying the
running index: gather `(index, args)` of every not-completed entry with the
key and mark it complete, in list order. -/
def collectExecAux (k : Int) : List DeferM → Nat → List (Nat × String) × List DeferM
  | [], _ => ([], [])
  | e :: rest, i =>
    let t := collectExecAux k rest (i + 1)
    if e.key = k ∧ e.complete = false then
      ((i, e.args) :: t.1, {e with complete := true} :: t.2)
    else (t.1, e :: t.2)

/-- Phase one of `execute_message`: the batch to re-dispatch and the state
with those entries already marked complete. -/
def collectExec (k : Int) (s : SessionState) : List (Nat × String) × SessionState :=
  let t := collectExecAux k s.deferred 0
  (t.1, {s with deferred := t.2})

/-- One processed input line: `validate_input` (which records the colon
count into the shared state) plus the `do_input` verb dispatch.  The fuel
bounds the `Execute` re-dispatch nesting (the C code re-enters
`validate_input` from `execute_message`); `none` means the fuel ran out. -/
def runF : Nat → String → SessionState → Option SessionState
  | 0, _, _ => none
  | f + 1, line, s =>
    let p := parseLine line
    let args := p.1
    let s0 := {s with numColons := p.2}
    let head := args.getD 0 ""
    if head = "Connect" then some (connect_message args s0)
    else if head = "IM" then some (im_message args s0)
    else if head = "Deliver" then some (deliver_message args s0)
    else if head = "Withdraw" then some (withdraw_message args s0)
    else if head = "Transfer" then some (transfer_message args s0)
    else if head = "Defer" then some (defer_message args s0)
    else if head = "Execute" then
      let kp := strtolParse (args.getD 1 "")
      if kp.2 = "" ∧ 0 < kp.1 then
        let cm := collectExec kp.1 s0
        cm.1.foldl
          (fun acc it =>
            match acc with
            | none => none
            | some st => runF f it.2 {st with dispatched := st.dispatched ++ [it.1]})
          (some cm.2)
      else some s0
    else some s0

/-- The second phase of `execute_message`, as a standalone function: re-feed
each collected `(index, stored line)` through the dispatcher, logging the
index. -/
def dispatchFold (f : Nat) (l : List (Nat × String)) (st : SessionState) :
    Option SessionState :=
  l.foldl
    (fun acc it =>
      match acc with
      | none => none
      | some st2 => runF f it.2 {st2 with dispatched := st2.dispatched ++ [it.1]})
    (some st)

/-- The read loop of `client_connections` (lines 393-401): before processing
a message, once more than two messages have been seen, the session breaks
unless an `IM` has been both sent and received.  Returns the final state and
the unconsumed messages (non-empty exactly when the gate broke early). -/
def clientLoopF (f : Nat) : List String → Nat → SessionState →
    Option (SessionState × List String)
  | [], _, s => some (s, [])
  | m :: rest, cnt, s =>
    if 1 < cnt ∧ ¬(s.imRecieved = true ∧ s.imSent = true) then some (s, m :: rest)
    else
      match runF f m s with
      | none => none
      | some s2 => clientLoopF f rest (cnt + 1) s2

/-- Process a list of lines in order with no liveness gate (used to state
properties of command sequences). -/
def runSeq (f : Nat) : List String → SessionState → Option SessionState
  | [], s => some s
  | m :: rest, s =>
    match runF f m s with
    | none => none
    | some s2 => runSeq f rest s2

/-- Comparison used by `lexo_cmp` / `neigh_cmp`: `strcmp` on the names,
i.e. lexicographic string order. -/
def resourceLE (a b : Resource) : Prop := a.resource ≤ b.resource

instance : DecidableRel resourceLE := fun a b =>
  inferInstanceAs (Decidable (a.resource ≤ b.resource))

/-- Model of `qsort(resources, lexo_cmp)`. -/
def sort_resources (l : List Resource) : List Resource :=
  l.insertionSort resourceLE

/-- Comparison for neighbours, `strcmp` on names. -/
def neighbourLE (a b : NeighbourM) : Prop := a.name ≤ b.name

instance : DecidableRel neighbourLE := fun a b =>
  inferInstanceAs (Decidable (a.name ≤ b.name))

/-- Model of `qsort(neighbours, neigh_cmp)`. -/
def sort_neigh (l : List NeighbourM) : List NeighbourM :=
  l.insertionSort neighbourLE

/-- The goods-printing loop of `sigcatcher` (lines 161-167): one line per
entry with a non-zero amount, in array order. -/
def goodsLoop : List Resource → List String
  | [] => []
  | r :: rest =>
    if r.amount ≠ 0 then (r.resource ++ " " ++ toString r.amount) :: goodsLoop rest
    else goodsLoop rest

/-- `sigcatcher` (lines 150-176), one trigger: the lines printed for one
snapshot, after the two sorts. -/
def snapshotLines (s : SessionState) : List String :=
  "Goods:" :: goodsLoop (sort_resources s.resources)
    ++ "Neighbours:" :: (sort_neigh s.neighbours).map (fun nb => nb.name)

/-- A stored line whose processing cannot append a new deferred entry: if its
leading field is `Defer`, `defer_creator` rebuilds the empty string for it. -/
def noStoreLine (t : String) : Prop :=
  (parseLine t).1.getD 0 "" = "Defer" → defer_creator (parseLine t).1 = ""

instance (t : String) : Decidable (noStoreLine t) := by
  unfold noStoreLine; infer_instance

/-- Invariant of a session's deferred list: every stored command is inert for
`defer_message` when re-dispatched (true of every string `defer_creator`
actually produces, see the `Defer` claims). -/
def DeferInv (s : SessionState) : Prop :=
  ∀ e ∈ s.deferred, noStoreLine e.args

instance (s : SessionState) : Decidable (DeferInv s) := by
  unfold DeferInv; infer_instance

/-- Default deferred entry used with positional `getD` access. -/
def dDefault : DeferM := ⟨0, "", true⟩

/-- Completion flag of the deferred entry at index `j`. -/
def completeAt (s : SessionState) (j : Nat) : Bool := (s.deferred.getD j dDefault).complete

/-- Stored command of the deferred entry at index `j`. -/
def argsAt (s : SessionState) (j : Nat) : String := (s.deferred.getD j dDefault).args

/-- Key of the deferred entry at index `j`. -/
def keyAt (s : SessionState) (j : Nat) : Int := (s.deferred.getD j dDefault).key

/-- At most one inventory entry per good name. -/
def dedupInv (l : List Resource) : Prop := (l.map (fun r => r.resource)).Nodup

instance (l : List Resource) : Decidable (dedupInv l) := by
  unfold dedupInv; infer_instance

/-- A fresh session state right after the handshake message was written:
empty depot, `imSent` true, `imRecieved` false. -/
def initS : SessionState := ⟨[], [], 0, [], false, true, [], [], []⟩

/-- Forget the `numColons` scratch field (it is rewritten by every processed
line before any handler reads it). -/
def eraseNC (s : SessionState) : SessionState := {s with numColons := 0}

/-- Characters of `":" ++ p₁ ++ ":" ++ p₂ ++ ...`: the wire text of the
fields after the first one. -/
def tailJoin : List String → List Char
  | [] => []
  | p :: rest => ':' :: p.data ++ tailJoin rest

/-- A clean protocol token: non-empty, with no colon and no newline. -/
def cleanTok (p : String) : Prop :=
  p ≠ "" ∧ ∀ c ∈ p.data, c ≠ ':' ∧ c ≠ '\n'

instance (p : String) : Decidable (cleanTok p) := by
  unfold cleanTok; infer_instance

/-- The deferred list of `s2` is that of `s` with some completion flags
switched on: same length, same keys and stored commands position by
position, and completion is monotone. -/
def DeferPres (s s2 : SessionState) : Prop :=
  s2.deferred.length = s.deferred.length ∧
  (∀ j, keyAt s2 j = keyAt s j ∧ argsAt s2 j = argsAt s j) ∧
  (∀ j, completeAt s j = true → completeAt s2 j = true)

/-- `nd` is the batch of deferred-entry indices newly logged as re-dispatched
between `s` and `s2`: each was an existing not-completed entry of `s`, each
is completed in `s2`, and none is logged twice. -/
def DispatchDelta (s s2 : SessionState) (nd : List Nat) : Prop :=
  s2.dispatched = s.dispatched ++ nd ∧ nd.Nodup ∧
  ∀ i ∈ nd, i < s.deferred.length ∧ completeAt s i = false ∧ completeAt s2 i = true

instance {ε α : Type} [DecidableEq ε] [DecidableEq α] : DecidableEq (Except ε α) :=
  fun a b =>
    match a, b with
    | Except.ok x, Except.ok y =>
      if h : x = y then Decidable.isTrue (by rw [h])
      else Decidable.isFalse (fun hc => h (Except.ok.inj hc))
    | Except.error x, Except.error y =>
      if h : x = y then Decidable.isTrue (by rw [h])
      else Decidable.isFalse (fun hc => h (Except.error.inj hc))
    | Except.ok _, Except.error _ => Decidable.isFalse (fun hc => Except.noConfusion hc)
    | Except.error _, Except.ok _ => Decidable.isFalse (fun hc => Except.noConfusion hc)

instance : IsTotal Resource resourceLE :=
  ⟨fun a b => le_total a.resource b.resource⟩

instance : IsTrans Resource resourceLE :=
  ⟨fun _ _ _ h1 h2 => le_trans h1 h2⟩

instance : IsTotal NeighbourM neighbourLE :=
  ⟨fun a b => le_total a.name b.name⟩

instance : IsTrans NeighbourM neighbourLE :=
  ⟨fun _ _ _ h1 h2 => le_trans h1 h2⟩

/-! ### Inventory lemmas: `updateFirst` and `firstAmt` -/

theorem updateFirst_not_mem (g : String) (f : Int → Int) :
    ∀ l : List Resource, g ∉ l.map (fun r => r.resource) → updateFirst g f l = (l, false) := by
  intro l
  induction l with
  | nil => intro _; rfl
  | cons r rest ih =>
    intro hm
    simp only [List.map_cons, List.mem_cons, not_or] at hm
    have hr : ¬(r.resource = g) := fun h => hm.1 (Eq.symm h)
    simp only [updateFirst, if_neg hr, ih hm.2]

theorem updateFirst_found (g : String) (f : Int → Int) :
    ∀ l : List Resource, (updateFirst g f l).2 = true ↔ g ∈ l.map (fun r => r.resource) := by
  intro l
  induction l with
  | nil => simp [updateFirst]
  | cons r rest ih =>
    by_cases h : r.resource = g
    · simp [updateFirst, h]
    · have hg : ¬(g = r.resource) := fun hh => h (Eq.symm hh)
      simp [updateFirst, h, ih, hg]

theorem updateFirst_names (g : String) (f : Int → Int) :
    ∀ l : List Resource,
      (updateFirst g f l).1.map (fun r => r.resource) = l.map (fun r => r.resource) := by
  intro l
  induction l with
  | nil => rfl
  | cons r rest ih =>
    by_cases h : r.resource = g
    · simp [updateFirst, h]
    · simp [updateFirst, h, ih]

theorem firstAmt_not_mem :
    ∀ (l : List Resource) (g : String), g ∉ l.map (fun r => r.resource) → firstAmt l g = 0 := by
  intro l
  induction l with
  | nil => intro g _; rfl
  | cons r rest ih =>
    intro g hm
    simp only [List.map_cons, List.mem_cons, not_or] at hm
    have hr : ¬(r.resource = g) := fun h => hm.1 (Eq.symm h)
    simp [firstAmt, hr, ih g hm.2]

theorem firstAmt_updateFirst (g : String) (f : Int → Int) :
    ∀ l : List Resource, g ∈ l.map (fun r => r.resource) →
      firstAmt (updateFirst g f l).1 g = f (firstAmt l g) := by
  intro l
  induction l with
  | nil => simp
  | cons r rest ih =>
    intro hm
    by_cases h : r.resource = g
    · simp [updateFirst, h, firstAmt]
    · simp only [List.map_cons, List.mem_cons] at hm
      rcases hm with hm | hm
      · exact absurd (Eq.symm hm) h
      · simp [updateFirst, h, firstAmt, ih hm]

theorem firstAmt_append_not_mem :
    ∀ (l l2 : List Resource) (g : String), g ∉ l.map (fun r => r.resource) →
      firstAmt (l ++ l2) g = firstAmt l2 g := by
  intro l
  induction l with
  | nil => intro l2 g _; rfl
  | cons r rest ih =>
    intro l2 g hm
    simp only [List.map_cons, List.mem_cons, not_or] at hm
    have hr : ¬(r.resource = g) := fun h => hm.1 (Eq.symm h)
    simp [firstAmt, hr, ih l2 g hm.2]

theorem firstAmt_deliver_withdraw (res : List Resource) (g : String) (n : Int) :
    firstAmt
      (let d := (let t := updateFirst g (fun a => a + n) res;
                 if t.2 then t.1 else res ++ [Resource.mk g n]);
       let t2 := updateFirst g (fun a => a - n) d;
       if t2.2 then t2.1 else d ++ [Resource.mk g (0 - n)]) g = firstAmt res g := by
  by_cases hmem : g ∈ res.map (fun r => r.resource)
  · have hf : (updateFirst g (fun a => a + n) res).2 = true :=
      (updateFirst_found g _ res).2 hmem
    have hnames := updateFirst_names g (fun a => a + n) res
    have hmem2 : g ∈ (updateFirst g (fun a => a + n) res).1.map (fun r => r.resource) := by
      rw [hnames]; exact hmem
    have hf2 : (updateFirst g (fun a => a - n) (updateFirst g (fun a => a + n) res).1).2 = true :=
      (updateFirst_found g _ _).2 hmem2
    simp only [hf, if_true, hf2,
      firstAmt_updateFirst g _ _ hmem2, firstAmt_updateFirst g _ _ hmem]
    ring
  · have hf : (updateFirst g (fun a => a + n) res) = (res, false) :=
      updateFirst_not_mem g _ res hmem
    have hmem2 : g ∈ (res ++ [Resource.mk g n]).map (fun r => r.resource) := by simp
    have hf2 : (updateFirst g (fun a => a - n) (res ++ [Resource.mk g n])).2 = true :=
      (updateFirst_found g _ _).2 hmem2
    simp only [hf, Bool.false_eq_true, if_false]
    rw [if_pos hf2, firstAmt_updateFirst g _ _ hmem2,
      firstAmt_append_not_mem res _ g hmem, firstAmt_not_mem res g hmem]
    simp [firstAmt]

/-! ### Single-step unfolding of `runF` by leading verb -/

theorem runF_connect (f : Nat) (line : String) (s : SessionState) (args : List String) (nc : Nat)
    (hp : parseLine line = (args, nc)) (hh : args.getD 0 "" = "Connect") :
    runF (f+1) line s = some (connect_message args {s with numColons := nc}) := by
  simp only [List.getD_eq_getElem?_getD] at hh
  simp [runF, hp, hh]

theorem runF_im (f : Nat) (line : String) (s : SessionState) (args : List String) (nc : Nat)
    (hp : parseLine line = (args, nc)) (hh : args.getD 0 "" = "IM") :
    runF (f+1) line s = some (im_message args {s with numColons := nc}) := by
  simp only [List.getD_eq_getElem?_getD] at hh
  simp [runF, hp, hh]

theorem runF_deliver (f : Nat) (line : String) (s : SessionState) (args : List String) (nc : Nat)
    (hp : parseLine line = (args, nc)) (hh : args.getD 0 "" = "Deliver") :
    runF (f+1) line s = some (deliver_message args {s with numColons := nc}) := by
  simp only [List.getD_eq_getElem?_getD] at hh
  simp [runF, hp, hh]

theorem runF_withdraw (f : Nat) (line : String) (s : SessionState) (args : List String) (nc : Nat)
    (hp : parseLine line = (args, nc)) (hh : args.getD 0 "" = "Withdraw") :
    runF (f+1) line s = some (withdraw_message args {s with numColons := nc}) := by
  simp only [List.getD_eq_getElem?_getD] at hh
  simp [runF, hp, hh]

theorem runF_transfer (f : Nat) (line : String) (s : SessionState) (args : List String) (nc : Nat)
    (hp : parseLine line = (args, nc)) (hh : args.getD 0 "" = "Transfer") :
    runF (f+1) line s = some (transfer_message args {s with numColons := nc}) := by
  simp only [List.getD_eq_getElem?_getD] at hh
  simp [runF, hp, hh]

theorem runF_defer (f : Nat) (line : String) (s : SessionState) (args : List String) (nc : Nat)
    (hp : parseLine line = (args, nc)) (hh : args.getD 0 "" = "Defer") :
    runF (f+1) line s = some (defer_message args {s with numColons := nc}) := by
  simp only [List.getD_eq_getElem?_getD] at hh
  simp [runF, hp, hh]

theorem runF_execute (f : Nat) (line : String) (s : SessionState) (args : List String) (nc : Nat)
    (hp : parseLine line = (args, nc)) (hh : args.getD 0 "" = "Execute")
    (hk1 : (strtolParse (args.getD 1 "")).2 = "") (hk2 : 0 < (strtolParse (args.getD 1 "")).1) :
    runF (f+1) line s =
      dispatchFold f (collectExec (strtolParse (args.getD 1 "")).1 {s with numColons := nc}).1
        (collectExec (strtolParse (args.getD 1 "")).1 {s with numColons := nc}).2 := by
  simp only [List.getD_eq_getElem?_getD] at hh hk1 hk2 ⊢
  simp [runF, hp, hh, hk1, hk2, dispatchFold]

theorem runF_execute_badkey (f : Nat) (line : String) (s : SessionState) (args : List String)
    (nc : Nat) (hp : parseLine line = (args, nc)) (hh : args.getD 0 "" = "Execute")
    (hk : ¬((strtolParse (args.getD 1 "")).2 = "" ∧ 0 < (strtolParse (args.getD 1 "")).1)) :
    runF (f+1) line s = some {s with numColons := nc} := by
  simp only [List.getD_eq_getElem?_getD] at hh hk
  simp [runF, hp, hh, hk]

theorem runF_noverb (f : Nat) (line : String) (s : SessionState) (args : List String) (nc : Nat)
    (hp : parseLine line = (args, nc))
    (h1 : args.getD 0 "" ≠ "Connect") (h2 : args.getD 0 "" ≠ "IM")
    (h3 : args.getD 0 "" ≠ "Deliver") (h4 : args.getD 0 "" ≠ "Withdraw")
    (h5 : args.getD 0 "" ≠ "Transfer") (h6 : args.getD 0 "" ≠ "Defer")
    (h7 : args.getD 0 "" ≠ "Execute") :
    runF (f+1) line s = some {s with numColons := nc} := by
  simp only [List.getD_eq_getElem?_getD] at h1 h2 h3 h4 h5 h6 h7
  simp [runF, hp, h1, h2, h3, h4, h5, h6, h7]

/-! ### Claim C1: startup quantity validation -/

/-- C1: the startup validator `is_amount_valid` does exit with code 3 on
non-integer and negative quantity arguments, but — against the claim — it
also exits with code 3 on the quantity `"0"`: the `atoi(amount)` truthiness
conjunct rejects zero even though the neighbouring `output >= 0` test was
written to admit it, so `depot alpha widget 0` exits instead of recording
the zero-quantity good.  (`none` / `Except.error 3` model `exit(3)`.) -/
theorem c1_zero_quantity_exits :
    is_amount_valid "0" = none ∧
    gather_resources ["widget", "0"] = Except.error 3 ∧
    is_amount_valid "-5" = none ∧
    is_amount_valid "7x" = none ∧
    is_amount_valid "five" = none ∧
    is_amount_valid "5" = some 5 ∧
    gather_resources ["widget", "5"] = Except.ok [Resource.mk "widget" 5] := by
  decide

/-! ### Claim C2: uniqueness of inventory entries per good -/

/-- C2 counterexample: startup argument processing performs no
deduplication, so `depot alpha widget 5 widget 3` yields an initial
inventory with two entries for `widget`, refuting the claim that after
startup argument processing every good has at most one entry. -/
theorem c2_startup_duplicate :
    gather_resources ["widget", "5", "widget", "3"] =
      Except.ok [Resource.mk "widget" 5, Resource.mk "widget" 3] ∧
    ¬ dedupInv [Resource.mk "widget" 5, Resource.mk "widget" 3] := by
  decide

theorem deliver_preserves_dedup (args : List String) (s : SessionState)
    (h : dedupInv s.resources) : dedupInv (deliver_message args s).resources := by
  by_cases hg : 0 < verify_num (args.getD 1 "") ∧ s.numColons = 2
  · simp only [deliver_message, if_pos hg]
    by_cases hf : (updateFirst (verify_name (args.getD 2 ""))
        (fun a => a + verify_num (args.getD 1 "")) s.resources).2 = true
    · simp only [if_pos hf]
      unfold dedupInv
      rw [updateFirst_names]
      exact h
    · have hnm : verify_name (args.getD 2 "") ∉ s.resources.map (fun r => r.resource) :=
        fun hmem => hf ((updateFirst_found _ _ _).2 hmem)
      simp only [if_neg hf]
      unfold dedupInv
      rw [List.map_append, List.nodup_append]
      exact ⟨h, by simp, by simpa using hnm⟩
  · simp only [deliver_message, if_neg hg]
    exact h

theorem withdraw_preserves_dedup (args : List String) (s : SessionState)
    (h : dedupInv s.resources) : dedupInv (withdraw_message args s).resources := by
  by_cases hg : 0 < verify_num (args.getD 1 "") ∧ s.numColons = 2
  · simp only [withdraw_message, if_pos hg]
    by_cases hf : (updateFirst (verify_name (args.getD 2 ""))
        (fun a => a - verify_num (args.getD 1 "")) s.resources).2 = true
    · simp only [if_pos hf]
      unfold dedupInv
      rw [updateFirst_names]
      exact h
    · have hnm : verify_name (args.getD 2 "") ∉ s.resources.map (fun r => r.resource) :=
        fun hmem => hf ((updateFirst_found _ _ _).2 hmem)
      simp only [if_neg hf]
      unfold dedupInv
      rw [List.map_append, List.nodup_append]
      exact ⟨h, by simp, by simpa using hnm⟩
  · simp only [withdraw_message, if_neg hg]
    exact h

/-- C2 amended: startup argument processing inserts one entry per pair
without deduplication (see the counterexample), so the invariant can be
broken from the command line; but starting from any inventory with at most
one entry per good, every sequence of `Deliver` and `Withdraw` commands
preserves that uniqueness: `deliver_message` and `withdraw_message` update
the first matching entry and append only when no entry matches. -/
theorem c2_deliver_withdraw_keep_unique (f : Nat) :
    ∀ (msgs : List String) (s s2 : SessionState),
    (∀ m ∈ msgs, (parseLine m).1.getD 0 "" = "Deliver" ∨
      (parseLine m).1.getD 0 "" = "Withdraw") →
    dedupInv s.resources → runSeq (f+1) msgs s = some s2 → dedupInv s2.resources := by
  intro msgs
  induction msgs with
  | nil =>
    intro s s2 _ h hr
    simp only [runSeq, Option.some.injEq] at hr
    rw [← hr]
    exact h
  | cons m rest ih =>
    intro s s2 hheads h hr
    simp only [runSeq] at hr
    rcases hm : runF (f+1) m s with _ | s1
    · rw [hm] at hr; cases hr
    · rw [hm] at hr
      have hp : parseLine m = ((parseLine m).1, (parseLine m).2) := rfl
      have hdm : dedupInv s1.resources := by
        rcases hheads m (List.mem_cons_self m rest) with hh | hh
        · rw [runF_deliver f m s _ _ hp hh] at hm
          cases hm
          exact deliver_preserves_dedup _ _ h
        · rw [runF_withdraw f m s _ _ hp hh] at hm
          cases hm
          exact withdraw_preserves_dedup _ _ h
      exact ih s1 s2 (fun x hx => hheads x (List.mem_cons_of_mem m hx)) hdm hr

/-! ### Claim C7: Deliver then Withdraw round trip -/

theorem deliver_message_numColons (args : List String) (s : SessionState) :
    (deliver_message args s).numColons = s.numColons := by
  simp only [deliver_message]
  split
  · split <;> rfl
  · rfl

theorem withdraw_message_numColons (args : List String) (s : SessionState) :
    (withdraw_message args s).numColons = s.numColons := by
  simp only [withdraw_message]
  split
  · split <;> rfl
  · rfl

theorem deliver_resources (ns gs : String) (s : SessionState) (hnc : s.numColons = 2)
    (hn : 0 < verify_num ns) (hg : verify_name gs = gs) :
    (deliver_message ["Deliver", ns, gs] s).resources =
      (let t := updateFirst gs (fun a => a + verify_num ns) s.resources;
       if t.2 then t.1 else s.resources ++ [Resource.mk gs (verify_num ns)]) := by
  have e1 : (["Deliver", ns, gs].getD 1 "") = ns := rfl
  have e2 : (["Deliver", ns, gs].getD 2 "") = gs := rfl
  simp only [deliver_message, e1, e2, hg]
  rw [if_pos ⟨hn, hnc⟩]
  split <;> rfl

theorem withdraw_resources (vs ns gs : String) (s : SessionState) (hnc : s.numColons = 2)
    (hn : 0 < verify_num ns) (hg : verify_name gs = gs) :
    (withdraw_message [vs, ns, gs] s).resources =
      (let t := updateFirst gs (fun a => a - verify_num ns) s.resources;
       if t.2 then t.1 else s.resources ++ [Resource.mk gs (0 - verify_num ns)]) := by
  have e1 : ([vs, ns, gs].getD 1 "") = ns := rfl
  have e2 : ([vs, ns, gs].getD 2 "") = gs := rfl
  simp only [withdraw_message, e1, e2, hg]
  rw [if_pos ⟨hn, hnc⟩]
  split <;> rfl

/-- C7: from any inventory state, a valid `Deliver:n:g` immediately followed
by a valid `Withdraw:n:g` (same positive `n`, same valid good `g`) leaves
the quantity of `g` unchanged: both handlers act on the first entry named
`g` (appending one when absent), so the addition and the subtraction
cancel. -/
theorem c7_deliver_withdraw_roundtrip (f : Nat) (s : SessionState) (l1 l2 ns gs : String)
    (h1 : parseLine l1 = (["Deliver", ns, gs], 2))
    (h2 : parseLine l2 = (["Withdraw", ns, gs], 2))
    (hn : 0 < verify_num ns) (hg : verify_name gs = gs) :
    ∃ s1 s2, runF (f+1) l1 s = some s1 ∧ runF (f+1) l2 s1 = some s2 ∧
      firstAmt s2.resources gs = firstAmt s.resources gs := by
  have hd := runF_deliver f l1 s ["Deliver", ns, gs] 2 h1 rfl
  set s1 := deliver_message ["Deliver", ns, gs] {s with numColons := 2} with hs1
  have hw := runF_withdraw f l2 s1 ["Withdraw", ns, gs] 2 h2 rfl
  refine ⟨s1, _, hd, hw, ?_⟩
  have hnc1 : ({s1 with numColons := 2} : SessionState).numColons = 2 := rfl
  have hres1 : ({s1 with numColons := 2} : SessionState).resources = s1.resources := rfl
  have hwres := withdraw_resources "Withdraw" ns gs {s1 with numColons := 2} hnc1 hn hg
  rw [hwres, hres1]
  have hdres := deliver_resources ns gs {s with numColons := 2} rfl hn hg
  rw [hs1, hdres]
  exact firstAmt_deliver_withdraw s.resources gs (verify_num ns)

/-- C7 witness: the round trip evaluated at `Deliver:5:g` then
`Withdraw:5:g` from the fresh state. -/
theorem c7_witness :
    ∃ s1 s2, runF 1 "Deliver:5:g\n" initS = some s1 ∧ runF 1 "Withdraw:5:g\n" s1 = some s2 ∧
      firstAmt s2.resources "g" = firstAmt initS.resources "g" :=
  c7_deliver_withdraw_roundtrip 0 initS "Deliver:5:g\n" "Withdraw:5:g\n" "5" "g"
    (by decide) (by decide) (by decide) (by decide)

/-! ### Claim C8: Withdraw semantics -/

/-- C8: a valid `Withdraw` (positive fully parsed quantity, valid good,
two colons) subtracts the quantity from the good's first inventory entry
when one exists (leaving the set of entry names unchanged), and otherwise
appends a brand-new entry holding exactly the negated quantity; the balance
may go and stay negative, since the subtraction is exact integer
arithmetic with no clamping and entries are never removed. -/
theorem c8_withdraw_spec (f : Nat) (s : SessionState) (line ns gs : String)
    (hp : parseLine line = (["Withdraw", ns, gs], 2))
    (hn : 0 < verify_num ns) (hg : verify_name gs = gs) :
    ∃ s2, runF (f+1) line s = some s2 ∧
      (gs ∈ s.resources.map (fun r => r.resource) →
        firstAmt s2.resources gs = firstAmt s.resources gs - verify_num ns ∧
        s2.resources.map (fun r => r.resource) = s.resources.map (fun r => r.resource)) ∧
      (gs ∉ s.resources.map (fun r => r.resource) →
        s2.resources = s.resources ++ [Resource.mk gs (-(verify_num ns))]) := by
  have hw := runF_withdraw f line s ["Withdraw", ns, gs] 2 hp rfl
  have hres := withdraw_resources "Withdraw" ns gs {s with numColons := 2} rfl hn hg
  have hrr : ({s with numColons := 2} : SessionState).resources = s.resources := rfl
  rw [hrr] at hres
  refine ⟨_, hw, ?_, ?_⟩
  · intro hmem
    have hf : (updateFirst gs (fun a => a - verify_num ns) s.resources).2 = true :=
      (updateFirst_found _ _ _).2 hmem
    rw [hres]
    simp only [if_pos hf]
    exact ⟨firstAmt_updateFirst gs _ s.resources hmem, updateFirst_names gs _ s.resources⟩
  · intro hmem
    have hf : updateFirst gs (fun a => a - verify_num ns) s.resources = (s.resources, false) :=
      updateFirst_not_mem gs _ s.resources hmem
    rw [hres]
    simp only [hf, Bool.false_eq_true, if_false, zero_sub]

/-- C8 witness: withdrawing a good absent from the inventory creates the
`-3` entry; withdrawing a present good subtracts. -/
theorem c8_witness :
    ∃ s2, runF 1 "Withdraw:3:bolt\n" initS = some s2 ∧
      ("bolt" ∈ initS.resources.map (fun r => r.resource) →
        firstAmt s2.resources "bolt" = firstAmt initS.resources "bolt" - verify_num "3" ∧
        s2.resources.map (fun r => r.resource) = initS.resources.map (fun r => r.resource)) ∧
      ("bolt" ∉ initS.resources.map (fun r => r.resource) →
        s2.resources = initS.resources ++ [Resource.mk "bolt" (-(verify_num "3"))]) :=
  c8_withdraw_spec 0 initS "Withdraw:3:bolt\n" "3" "bolt" (by decide) (by decide) (by decide)

/-! ### Claim C9: snapshot report -/

theorem goodsLoop_eq_filter :
    ∀ l : List Resource,
      goodsLoop l = (l.filter (fun r => r.amount ≠ 0)).map
        (fun r => r.resource ++ " " ++ toString r.amount) := by
  intro l
  induction l with
  | nil => rfl
  | cons r rest ih =>
    by_cases h : r.amount = 0 <;> simp [goodsLoop, h, ih, List.filter_cons]

/-- C9: one snapshot trigger prints the literal line `Goods:`, then one line
`<good> <qty>` for each inventory entry with a non-zero quantity (entries
with quantity exactly `0` are skipped by the printing loop), sorted
ascending by good name, then the literal line `Neighbours:`, then each
neighbour name on its own line sorted ascending; the printed goods lines
are a permutation of the non-zero entries of the inventory and the printed
neighbour lines a permutation of the neighbour names. -/
theorem c9_snapshot_spec (s : SessionState) :
    snapshotLines s =
      "Goods:" :: ((sort_resources s.resources).filter (fun r => r.amount ≠ 0)).map
        (fun r => r.resource ++ " " ++ toString r.amount)
      ++ "Neighbours:" :: (sort_neigh s.neighbours).map (fun nb => nb.name) ∧
    ((sort_resources s.resources).filter (fun r => r.amount ≠ 0)).Pairwise resourceLE ∧
    ((sort_resources s.resources).filter (fun r => r.amount ≠ 0)).Perm
      (s.resources.filter (fun r => r.amount ≠ 0)) ∧
    ((sort_neigh s.neighbours).map (fun nb => nb.name)).Pairwise (fun a b => a ≤ b) ∧
    ((sort_neigh s.neighbours).map (fun nb => nb.name)).Perm
      (s.neighbours.map (fun nb => nb.name)) := by
  refine ⟨?_, ?_, ?_, ?_, ?_⟩
  · unfold snapshotLines
    rw [goodsLoop_eq_filter]
  · exact List.Pairwise.sublist (List.filter_sublist _)
      (List.sorted_insertionSort resourceLE s.resources)
  · exact (List.perm_insertionSort resourceLE s.resources).filter _
  · exact List.pairwise_map.2 (List.sorted_insertionSort neighbourLE s.neighbours)
  · exact (List.perm_insertionSort neighbourLE s.neighbours).map _

/-- C2 witness: the preservation theorem applied to the sequence
`Deliver:2:bolt` then `Withdraw:5:bolt` from a duplicate-free inventory. -/
theorem c2_witness :
    dedupInv ({initS with
      resources := [Resource.mk "widget" 5, Resource.mk "bolt" (-3)],
      numColons := 2} : SessionState).resources :=
  c2_deliver_withdraw_keep_unique 0 ["Deliver:2:bolt\n", "Withdraw:5:bolt\n"]
    {initS with resources := [Resource.mk "widget" 5]}
    {initS with resources := [Resource.mk "widget" 5, Resource.mk "bolt" (-3)], numColons := 2}
    (by decide) (by decide) (by decide)

/-! ### Parser round trip on clean tokens -/

theorem parseAux_clean_chunk :
    ∀ (chunk : List Char), (∀ c ∈ chunk, c ≠ ':' ∧ c ≠ '\n') →
      ∀ (rest cur : List Char), parseAux (chunk ++ rest) cur = parseAux rest (cur ++ chunk) := by
  intro chunk
  induction chunk with
  | nil => intro _ rest cur; simp
  | cons c t ih =>
    intro hc rest cur
    have h1 := hc c (List.mem_cons_self c t)
    have ht : ∀ x ∈ t, x ≠ ':' ∧ x ≠ '\n' := fun x hx => hc x (List.mem_cons_of_mem c hx)
    rw [List.cons_append, parseAux.eq_def]
    simp only [if_neg h1.2, if_neg h1.1]
    rw [ih ht rest (cur ++ [c])]
    simp

theorem parseAux_tailJoin :
    ∀ (parts : List String), (∀ p ∈ parts, cleanTok p) →
      ∀ cur : List Char,
        parseAux (tailJoin parts ++ ['\n']) cur = (String.mk cur :: parts, parts.length) := by
  intro parts
  induction parts with
  | nil =>
    intro _ cur
    simp only [tailJoin, List.nil_append, List.length_nil]
    rw [parseAux.eq_def]
    simp
  | cons p ps ih =>
    intro hp cur
    have hcp := hp p (List.mem_cons_self p ps)
    have hps : ∀ q ∈ ps, cleanTok q := fun q hq => hp q (List.mem_cons_of_mem p hq)
    obtain ⟨hne, hclean⟩ := hcp
    have hdata : p.data ≠ [] := by
      intro h
      apply hne
      cases p with
      | mk l =>
        simp only at h
        rw [h]
    rcases hd : p.data with _ | ⟨d, t⟩
    · exact absurd hd hdata
    · have hdc := hclean d (by rw [hd]; exact List.mem_cons_self d t)
      have htc : ∀ x ∈ t, x ≠ ':' ∧ x ≠ '\n' := fun x hx =>
        hclean x (by rw [hd]; exact List.mem_cons_of_mem d hx)
      show parseAux ((':' :: p.data ++ tailJoin ps) ++ ['\n']) cur = _
      rw [hd]
      rw [List.cons_append, List.cons_append, parseAux.eq_def]
      simp only [reduceIte, List.cons_append, List.append_assoc, if_neg hdc.2]
      rw [parseAux_clean_chunk t htc (tailJoin ps ++ ['\n']) [d]]
      have he : ([d] ++ t) = p.data := by rw [hd]; rfl
      rw [he, ih hps p.data]
      have hmk : String.mk p.data = p := by cases p; rfl
      simp [hmk]

theorem parseLine_clean (p0 : String) (parts : List String)
    (h0 : ∀ c ∈ p0.data, c ≠ ':' ∧ c ≠ '\n') (hp : ∀ p ∈ parts, cleanTok p) :
    parseLine (String.mk (p0.data ++ tailJoin parts ++ ['\n'])) = (p0 :: parts, parts.length) := by
  unfold parseLine
  have hdata : (String.mk (p0.data ++ tailJoin parts ++ ['\n'])).data
      = p0.data ++ tailJoin parts ++ ['\n'] := rfl
  rw [hdata, List.append_assoc, parseAux_clean_chunk p0.data h0 (tailJoin parts ++ ['\n']) []]
  rw [List.nil_append, parseAux_tailJoin parts hp p0.data]

/-! ### Claim C3: Defer storage -/

theorem string_data_ext (x y : String) (h : x.data = y.data) : x = y := by
  cases x with
  | mk dx =>
    cases y with
    | mk dy => exact congrArg String.mk h

theorem countNonempty_cons (p : String) (l : List String) :
    countNonempty (p :: l) = (if p = "" then 0 else 1) + countNonempty l := by
  by_cases h : p = ""
  · simp [countNonempty, List.filter_cons, h]
  · simp [countNonempty, List.filter_cons, h]
    omega

theorem defer_store3 (f : Nat) (s : SessionState) (ks a b c : String) (k : Int)
    (hks : strtolParse ks = (k, "")) (hkpos : 0 < k)
    (hksclean : ∀ ch ∈ ks.data, ch ≠ ':' ∧ ch ≠ '\n')
    (ha : cleanTok a) (hb : cleanTok b) (hc : cleanTok c) :
    runF (f+1) ("Defer" ++ ":" ++ ks ++ ":" ++ (a ++ ":" ++ b ++ ":" ++ c ++ "\n")) s =
      some {s with
        numColons := 4,
        deferred := s.deferred ++ [DeferM.mk k (a ++ ":" ++ b ++ ":" ++ c ++ "\n") false]} := by
  have hks0 : ks ≠ "" := by
    intro h
    rw [h] at hks
    have : ((0 : Int), ("" : String)) = (k, "") := hks
    have hk0 : (0 : Int) = k := congrArg Prod.fst this
    omega
  have hcolon : ((":" : String)).data = [':'] := rfl
  have hnl : (("\n" : String)).data = ['\n'] := rfl
  have hline : ("Defer" ++ ":" ++ ks ++ ":" ++ (a ++ ":" ++ b ++ ":" ++ c ++ "\n"))
      = String.mk ("Defer".data ++ tailJoin [ks, a, b, c] ++ ['\n']) := by
    apply string_data_ext
    simp [String.data_append, tailJoin, hcolon, hnl]
  have hp : parseLine ("Defer" ++ ":" ++ ks ++ ":" ++ (a ++ ":" ++ b ++ ":" ++ c ++ "\n"))
      = (["Defer", ks, a, b, c], 4) := by
    rw [hline]
    exact parseLine_clean "Defer" [ks, a, b, c] (by decide)
      (by
        intro p hmem
        simp only [List.mem_cons, List.not_mem_nil, or_false] at hmem
        rcases hmem with h | h | h | h
        · rw [h]; exact ⟨hks0, hksclean⟩
        · rw [h]; exact ha
        · rw [h]; exact hb
        · rw [h]; exact hc)
  rw [runF_defer f _ s ["Defer", ks, a, b, c] 4 hp rfl]
  have hcnt : countNonempty (["Defer", ks, a, b, c].drop 2) = 3 := by
    show countNonempty [a, b, c] = 3
    rw [countNonempty_cons, countNonempty_cons, countNonempty_cons]
    simp [ha.1, hb.1, hc.1, countNonempty]
  have hdc : defer_creator ["Defer", ks, a, b, c] = a ++ ":" ++ b ++ ":" ++ c ++ "\n" := by
    simp only [defer_creator, hcnt, reduceIte]
    rfl
  have hne2 : a ++ ":" ++ b ++ ":" ++ c ++ "\n" ≠ "" := by
    intro h
    have hd := congrArg String.data h
    simp [String.data_append, hcolon, hnl] at hd
  simp only [defer_message]
  have hget1 : (["Defer", ks, a, b, c].getD 1 "") = ks := rfl
  rw [hget1, hks, hdc]
  have hcond : ((k, ("" : String)).2 = "" ∧ 0 < (k, ("" : String)).1 ∧
      (a ++ ":" ++ b ++ ":" ++ c ++ "\n") ≠ "") := ⟨rfl, hkpos, hne2⟩
  rw [if_pos hcond]

theorem defer_store4 (f : Nat) (s : SessionState) (ks a b c d : String) (k : Int)
    (hks : strtolParse ks = (k, "")) (hkpos : 0 < k)
    (hksclean : ∀ ch ∈ ks.data, ch ≠ ':' ∧ ch ≠ '\n')
    (ha : cleanTok a) (hb : cleanTok b) (hc : cleanTok c) (hd4 : cleanTok d) :
    runF (f+1) ("Defer" ++ ":" ++ ks ++ ":" ++
        (a ++ ":" ++ b ++ ":" ++ c ++ ":" ++ d ++ "\n")) s =
      some {s with
        numColons := 5,
        deferred := s.deferred ++
          [DeferM.mk k (a ++ ":" ++ b ++ ":" ++ c ++ ":" ++ d ++ "\n") false]} := by
  have hks0 : ks ≠ "" := by
    intro h
    rw [h] at hks
    have : ((0 : Int), ("" : String)) = (k, "") := hks
    have hk0 : (0 : Int) = k := congrArg Prod.fst this
    omega
  have hcolon : ((":" : String)).data = [':'] := rfl
  have hnl : (("\n" : String)).data = ['\n'] := rfl
  have hline : ("Defer" ++ ":" ++ ks ++ ":" ++ (a ++ ":" ++ b ++ ":" ++ c ++ ":" ++ d ++ "\n"))
      = String.mk ("Defer".data ++ tailJoin [ks, a, b, c, d] ++ ['\n']) := by
    apply string_data_ext
    simp [String.data_append, tailJoin, hcolon, hnl]
  have hp : parseLine ("Defer" ++ ":" ++ ks ++ ":" ++
      (a ++ ":" ++ b ++ ":" ++ c ++ ":" ++ d ++ "\n")) = (["Defer", ks, a, b, c, d], 5) := by
    rw [hline]
    exact parseLine_clean "Defer" [ks, a, b, c, d] (by decide)
      (by
        intro p hmem
        simp only [List.mem_cons, List.not_mem_nil, or_false] at hmem
        rcases hmem with h | h | h | h | h
        · rw [h]; exact ⟨hks0, hksclean⟩
        · rw [h]; exact ha
        · rw [h]; exact hb
        · rw [h]; exact hc
        · rw [h]; exact hd4)
  rw [runF_defer f _ s ["Defer", ks, a, b, c, d] 5 hp rfl]
  have hcnt : countNonempty (["Defer", ks, a, b, c, d].drop 2) = 4 := by
    show countNonempty [a, b, c, d] = 4
    rw [countNonempty_cons, countNonempty_cons, countNonempty_cons, countNonempty_cons]
    simp [ha.1, hb.1, hc.1, hd4.1, countNonempty]
  have hdc : defer_creator ["Defer", ks, a, b, c, d]
      = a ++ ":" ++ b ++ ":" ++ c ++ ":" ++ d ++ "\n" := by
    simp only [defer_creator, hcnt, reduceIte]
    rfl
  have hne2 : a ++ ":" ++ b ++ ":" ++ c ++ ":" ++ d ++ "\n" ≠ "" := by
    intro h
    have hdd := congrArg String.data h
    simp [String.data_append, hcolon, hnl] at hdd
  simp only [defer_message]
  have hget1 : (["Defer", ks, a, b, c, d].getD 1 "") = ks := rfl
  rw [hget1, hks, hdc]
  have hcond : ((k, ("" : String)).2 = "" ∧ 0 < (k, ("" : String)).1 ∧
      (a ++ ":" ++ b ++ ":" ++ c ++ ":" ++ d ++ "\n") ≠ "") := ⟨rfl, hkpos, hne2⟩
  rw [if_pos hcond]

theorem defer_drop (f : Nat) (s : SessionState) (line : String)
    (hd : (parseLine line).1.getD 0 "" = "Defer")
    (h3 : countNonempty ((parseLine line).1.drop 2) ≠ 3)
    (h4 : countNonempty ((parseLine line).1.drop 2) ≠ 4) :
    runF (f+1) line s = some {s with numColons := (parseLine line).2} := by
  have hp : parseLine line = ((parseLine line).1, (parseLine line).2) := rfl
  rw [runF_defer f line s _ _ hp hd]
  have hdc : defer_creator (parseLine line).1 = "" := by
    simp only [defer_creator, if_neg h3, if_neg h4]
  simp only [defer_message, hdc]
  rw [if_neg (fun hcond => hcond.2.2 rfl)]

/-- C3 counterexample: a `Defer` line whose inner command has two fields
(`Connect:4000`, or `Execute:9`) stores nothing: `defer_creator` rebuilds an
inner command only from exactly three or four non-empty argument slots, so
the entry the claim requires never appears in the deferred list. -/
theorem c3_inner_connect_dropped :
    runF 2 "Defer:7:Connect:4000\n" initS = some {initS with numColons := 3} ∧
    (runF 2 "Defer:7:Connect:4000\n" initS).map (fun s2 => s2.deferred) = some [] ∧
    (runF 2 "Defer:7:Execute:9\n" initS).map (fun s2 => s2.deferred) = some [] := by
  decide

/-- C3 amended: for a positive fully parsed key, an inner command of
exactly three or four clean colon-separated fields is stored verbatim — the
stored string is character for character the wire line without the leading
`Defer:key:` prefix — with `complete = false` appended to the session's
deferred list; but an inner command of any other field count (for example
`Connect:port` or `Execute:key`, which have two fields) is discarded and
nothing is stored. -/
theorem c3_defer_verbatim (f : Nat) (s : SessionState) :
    (∀ ks a b c k, strtolParse ks = (k, "") → 0 < k →
      (∀ ch ∈ ks.data, ch ≠ ':' ∧ ch ≠ '\n') → cleanTok a → cleanTok b → cleanTok c →
      runF (f+1) ("Defer" ++ ":" ++ ks ++ ":" ++ (a ++ ":" ++ b ++ ":" ++ c ++ "\n")) s =
        some {s with
          numColons := 4,
          deferred := s.deferred ++ [DeferM.mk k (a ++ ":" ++ b ++ ":" ++ c ++ "\n") false]}) ∧
    (∀ ks a b c d k, strtolParse ks = (k, "") → 0 < k →
      (∀ ch ∈ ks.data, ch ≠ ':' ∧ ch ≠ '\n') → cleanTok a → cleanTok b → cleanTok c →
      cleanTok d →
      runF (f+1) ("Defer" ++ ":" ++ ks ++ ":" ++
          (a ++ ":" ++ b ++ ":" ++ c ++ ":" ++ d ++ "\n")) s =
        some {s with
          numColons := 5,
          deferred := s.deferred ++
            [DeferM.mk k (a ++ ":" ++ b ++ ":" ++ c ++ ":" ++ d ++ "\n") false]}) ∧
    (∀ line, (parseLine line).1.getD 0 "" = "Defer" →
      countNonempty ((parseLine line).1.drop 2) ≠ 3 →
      countNonempty ((parseLine line).1.drop 2) ≠ 4 →
      runF (f+1) line s = some {s with numColons := (parseLine line).2}) :=
  ⟨fun ks a b c k h1 h2 h3 h4 h5 h6 => defer_store3 f s ks a b c k h1 h2 h3 h4 h5 h6,
   fun ks a b c d k h1 h2 h3 h4 h5 h6 h7 => defer_store4 f s ks a b c d k h1 h2 h3 h4 h5 h6 h7,
   fun line h1 h2 h3 => defer_drop f s line h1 h2 h3⟩

/-- C3 witness: `Defer:7:Deliver:2:bolt` stores `Deliver:2:bolt` under key
7; `Defer:7:Execute:9` stores nothing. -/
theorem c3_witness :
    runF 1 ("Defer" ++ ":" ++ "7" ++ ":" ++ ("Deliver" ++ ":" ++ "2" ++ ":" ++ "bolt" ++ "\n"))
        initS =
      some {initS with
        numColons := 4,
        deferred := initS.deferred ++
          [DeferM.mk 7 ("Deliver" ++ ":" ++ "2" ++ ":" ++ "bolt" ++ "\n") false]} ∧
    runF 1 "Defer:7:Execute:9\n" initS =
      some {initS with numColons := (parseLine "Defer:7:Execute:9\n").2} :=
  ⟨(c3_defer_verbatim 0 initS).1 "7" "Deliver" "2" "bolt" 7 (by decide) (by decide)
      (by decide) (by decide) (by decide) (by decide),
   (c3_defer_verbatim 0 initS).2.2 "Defer:7:Execute:9\n" (by decide) (by decide) (by decide)⟩

/-! ### Claim C4: arity enforcement -/

theorem runF_nc (f : Nat) (t : String) (s : SessionState) (x : Nat) :
    runF f t {s with numColons := x} = runF f t s := by
  cases f <;> rfl

theorem dispatchFold_none (f : Nat) :
    ∀ l : List (Nat × String),
      (l.foldl (fun acc it =>
        match acc with
        | none => none
        | some st2 => runF f it.2 {st2 with dispatched := st2.dispatched ++ [it.1]}) none) =
      none := by
  intro l
  induction l with
  | nil => rfl
  | cons p rest ih =>
    rw [List.foldl_cons]
    exact ih

theorem dispatchFold_cons (f : Nat) (i : Nat) (t : String) (rest : List (Nat × String))
    (st : SessionState) :
    dispatchFold f ((i, t) :: rest) st =
      match runF f t {st with dispatched := st.dispatched ++ [i]} with
      | none => none
      | some st2 => dispatchFold f rest st2 := by
  unfold dispatchFold
  rw [List.foldl_cons]
  rcases h : runF f t {st with dispatched := st.dispatched ++ [i]} with _ | st2
  · show (rest.foldl _ (runF f t {st with dispatched := st.dispatched ++ [i]})) = _
    rw [h]
    exact dispatchFold_none f rest
  · show (rest.foldl _ (runF f t {st with dispatched := st.dispatched ++ [i]})) = _
    rw [h]

theorem dispatchFold_nc (f : Nat) (l : List (Nat × String)) (s : SessionState) (x : Nat) :
    (dispatchFold f l {s with numColons := x}).map eraseNC =
      (dispatchFold f l s).map eraseNC := by
  cases l with
  | nil => rfl
  | cons p rest =>
    obtain ⟨i, t⟩ := p
    rw [dispatchFold_cons, dispatchFold_cons]
    have he : runF f t
        {({s with numColons := x} : SessionState) with
          dispatched := ({s with numColons := x} : SessionState).dispatched ++ [i]} =
        runF f t {s with dispatched := s.dispatched ++ [i]} :=
      runF_nc f t {s with dispatched := s.dispatched ++ [i]} x
    rw [he]

/-- C4 counterexample: the line `Execute:1:junk` carries two colons while
`Execute` takes one, yet it is acted on rather than discarded:
`execute_message` never consults the colon count, so the stored key-1
command runs and the state changes (inventory, completion flag and dispatch
log all move). -/
theorem c4_execute_wrong_arity_acts :
    runF 2 "Execute:1:junk\n" {initS with deferred := [DeferM.mk 1 "Deliver:2:bolt\n" false]} =
      some {initS with
        resources := [Resource.mk "bolt" 2],
        numColons := 2,
        deferred := [DeferM.mk 1 "Deliver:2:bolt\n" true],
        dispatched := [0]} ∧
    (parseLine "Execute:1:junk\n").2 = 2 := by
  decide

/-- C4 amended: the colon count is enforced (wrong count means a silent
no-op, only the `numColons` scratch changes) exactly for `Deliver`,
`Withdraw` and `IM`; `Connect`, `Transfer` and `Execute` never consult it —
a `Connect` line with extra colon-separated fields still dials, and
`Transfer` and `Execute` lines with extra fields behave exactly as their
correct-arity counterparts (for `Execute`, up to the `numColons` scratch
field, which the next parsed line overwrites anyway). -/
theorem c4_arity_enforcement (f : Nat) (s : SessionState) :
    (∀ line args nc, parseLine line = (args, nc) → args.getD 0 "" = "Deliver" → nc ≠ 2 →
      runF (f+1) line s = some {s with numColons := nc}) ∧
    (∀ line args nc, parseLine line = (args, nc) → args.getD 0 "" = "Withdraw" → nc ≠ 2 →
      runF (f+1) line s = some {s with numColons := nc}) ∧
    (∀ line args nc, parseLine line = (args, nc) → args.getD 0 "" = "IM" → nc ≠ 2 →
      runF (f+1) line s = some {s with numColons := nc}) ∧
    (∀ line ps extra nc, parseLine line = ("Connect" :: ps :: extra, nc) →
      verify_num ps ≠ 0 → s.imRecieved = true →
      runF (f+1) line s = some {s with numColons := nc, dials := s.dials ++ [verify_num ps]}) ∧
    (∀ l1 l2 a1 a2 a3 extra nc1 nc2,
      parseLine l1 = (["Transfer", a1, a2, a3], nc1) →
      parseLine l2 = ("Transfer" :: a1 :: a2 :: a3 :: extra, nc2) →
      runF (f+1) l2 s = runF (f+1) l1 s) ∧
    (∀ l1 l2 ks e extra nc1 nc2,
      parseLine l1 = (["Execute", ks], nc1) →
      parseLine l2 = ("Execute" :: ks :: e :: extra, nc2) →
      (runF (f+1) l2 s).map eraseNC = (runF (f+1) l1 s).map eraseNC) := by
  refine ⟨?_, ?_, ?_, ?_, ?_, ?_⟩
  · intro line args nc hp hh hnc
    rw [runF_deliver f line s args nc hp hh]
    congr 1
    simp only [deliver_message]
    rw [if_neg (fun h => hnc h.2)]
  · intro line args nc hp hh hnc
    rw [runF_withdraw f line s args nc hp hh]
    congr 1
    simp only [withdraw_message]
    rw [if_neg (fun h => hnc h.2)]
  · intro line args nc hp hh hnc
    rw [runF_im f line s args nc hp hh]
    congr 1
    simp only [im_message]
    rw [if_neg (fun h => hnc h.2.1)]
  · intro line ps extra nc hp hport him
    rw [runF_connect f line s _ _ hp rfl]
    congr 1
    simp only [connect_message]
    have hg1 : (("Connect" :: ps :: extra).getD 1 "") = ps := rfl
    rw [hg1, if_pos ⟨hport, him⟩]
  · intro l1 l2 a1 a2 a3 extra nc1 nc2 h1 h2
    rw [runF_transfer f l1 s _ _ h1 rfl, runF_transfer f l2 s _ _ h2 rfl]
    rfl
  · intro l1 l2 ks e extra nc1 nc2 h1 h2
    by_cases hk : (strtolParse ks).2 = "" ∧ 0 < (strtolParse ks).1
    · rw [runF_execute f l1 s _ _ h1 rfl hk.1 hk.2,
        runF_execute f l2 s _ _ h2 rfl hk.1 hk.2]
      have hg1 : ((["Execute", ks] : List String).getD 1 "") = ks := rfl
      have hg2 : (("Execute" :: ks :: e :: extra).getD 1 "") = ks := rfl
      rw [hg1, hg2]
      have hS1 : (collectExec (strtolParse ks).1 {s with numColons := nc1}).2 =
          {({s with deferred := (collectExecAux (strtolParse ks).1 s.deferred 0).2} :
            SessionState) with numColons := nc1} := rfl
      have hS2 : (collectExec (strtolParse ks).1 {s with numColons := nc2}).2 =
          {({s with deferred := (collectExecAux (strtolParse ks).1 s.deferred 0).2} :
            SessionState) with numColons := nc2} := rfl
      have hB1 : (collectExec (strtolParse ks).1 {s with numColons := nc1}).1 =
          (collectExecAux (strtolParse ks).1 s.deferred 0).1 := rfl
      have hB2 : (collectExec (strtolParse ks).1 {s with numColons := nc2}).1 =
          (collectExecAux (strtolParse ks).1 s.deferred 0).1 := rfl
      rw [hB1, hB2, hS1, hS2]
      exact (dispatchFold_nc f _ _ nc2).trans (dispatchFold_nc f _ _ nc1).symm
    · rw [runF_execute_badkey f l1 s _ _ h1 rfl hk,
        runF_execute_badkey f l2 s _ _ h2 rfl hk]
      rfl

/-- C4 witness: the six parts of the arity theorem evaluated on concrete
lines. -/
theorem c4_witness :
    runF 1 "Deliver:5:g:zz\n" initS = some {initS with numColons := 3} ∧
    runF 1 "Withdraw:5:g:zz\n" initS = some {initS with numColons := 3} ∧
    runF 1 "IM:4000:beta:zz\n" initS = some {initS with numColons := 3} ∧
    runF 1 "Connect:4000:junk\n" {initS with imRecieved := true} =
      some {initS with imRecieved := true, numColons := 2, dials := [(4000 : Int)]} ∧
    runF 2 "Transfer:4:widget:beta:zz\n" initS = runF 2 "Transfer:4:widget:beta\n" initS ∧
    (runF 2 "Execute:1:zz\n"
        {initS with deferred := [DeferM.mk 1 "Deliver:2:bolt\n" false]}).map eraseNC =
      (runF 2 "Execute:1\n"
        {initS with deferred := [DeferM.mk 1 "Deliver:2:bolt\n" false]}).map eraseNC :=
  ⟨(c4_arity_enforcement 0 initS).1 "Deliver:5:g:zz\n" ["Deliver", "5", "g", "zz"] 3
      (by decide) (by decide) (by decide),
   (c4_arity_enforcement 0 initS).2.1 "Withdraw:5:g:zz\n" ["Withdraw", "5", "g", "zz"] 3
      (by decide) (by decide) (by decide),
   (c4_arity_enforcement 0 initS).2.2.1 "IM:4000:beta:zz\n" ["IM", "4000", "beta", "zz"] 3
      (by decide) (by decide) (by decide),
   (c4_arity_enforcement 0 {initS with imRecieved := true}).2.2.2.1 "Connect:4000:junk\n"
      "4000" ["junk"] 2 (by decide) (by decide) rfl,
   (c4_arity_enforcement 1 initS).2.2.2.2.1 "Transfer:4:widget:beta\n"
      "Transfer:4:widget:beta:zz\n" "4" "widget" "beta" ["zz"] 3 4 (by decide) (by decide),
   (c4_arity_enforcement 1 {initS with deferred := [DeferM.mk 1 "Deliver:2:bolt\n" false]}
      ).2.2.2.2.2 "Execute:1\n" "Execute:1:zz\n" "1" "zz" [] 1 2 (by decide) (by decide)⟩

/-! ### Claim C5: duplicate IM handling and the liveness gate -/

theorem connect_message_imRecieved (a : List String) (s : SessionState) :
    (connect_message a s).imRecieved = s.imRecieved := by
  simp only [connect_message]
  split <;> rfl

theorem deliver_message_imRecieved (a : List String) (s : SessionState) :
    (deliver_message a s).imRecieved = s.imRecieved := by
  simp only [deliver_message]
  split
  · split <;> rfl
  · rfl

theorem withdraw_message_imRecieved (a : List String) (s : SessionState) :
    (withdraw_message a s).imRecieved = s.imRecieved := by
  simp only [withdraw_message]
  split
  · split <;> rfl
  · rfl

theorem transfer_message_imRecieved (a : List String) (s : SessionState) :
    (transfer_message a s).imRecieved = s.imRecieved := by
  simp only [transfer_message]
  rcases h : findNeighbour (a.getD 3 "") s.neighbours with _ | nb
  · rfl
  · show (withdraw_message _ _).imRecieved = s.imRecieved
    rw [withdraw_message_imRecieved]

theorem defer_message_imRecieved (a : List String) (s : SessionState) :
    (defer_message a s).imRecieved = s.imRecieved := by
  simp only [defer_message]
  split <;> rfl

theorem im_message_imRecieved_mono (a : List String) (s : SessionState)
    (h : s.imRecieved = true) : (im_message a s).imRecieved = true := by
  simp only [im_message]
  split
  · split
    · exact h
    · rfl
  · exact h

theorem runF_preserves (Q : SessionState → Prop)
    (hnum : ∀ s n, Q s → Q {s with numColons := n})
    (hdisp : ∀ s i, Q s → Q {s with dispatched := s.dispatched ++ [i]})
    (hconn : ∀ a s, Q s → Q (connect_message a s))
    (him : ∀ a s, Q s → Q (im_message a s))
    (hdel : ∀ a s, Q s → Q (deliver_message a s))
    (hwit : ∀ a s, Q s → Q (withdraw_message a s))
    (htra : ∀ a s, Q s → Q (transfer_message a s))
    (hdef : ∀ a s, Q s → Q (defer_message a s))
    (hcol : ∀ k s, Q s → Q (collectExec k s).2) :
    ∀ (f : Nat) (line : String) (s s2 : SessionState),
      runF f line s = some s2 → Q s → Q s2 := by
  intro f
  induction f with
  | zero => intro line s s2 h; cases h
  | succ f ih =>
    intro line s s2 hrun hQ
    have hp : parseLine line = ((parseLine line).1, (parseLine line).2) := rfl
    by_cases h1 : (parseLine line).1.getD 0 "" = "Connect"
    · rw [runF_connect f line s _ _ hp h1] at hrun
      cases hrun
      exact hconn _ _ (hnum _ _ hQ)
    by_cases h2 : (parseLine line).1.getD 0 "" = "IM"
    · rw [runF_im f line s _ _ hp h2] at hrun
      cases hrun
      exact him _ _ (hnum _ _ hQ)
    by_cases h3 : (parseLine line).1.getD 0 "" = "Deliver"
    · rw [runF_deliver f line s _ _ hp h3] at hrun
      cases hrun
      exact hdel _ _ (hnum _ _ hQ)
    by_cases h4 : (parseLine line).1.getD 0 "" = "Withdraw"
    · rw [runF_withdraw f line s _ _ hp h4] at hrun
      cases hrun
      exact hwit _ _ (hnum _ _ hQ)
    by_cases h5 : (parseLine line).1.getD 0 "" = "Transfer"
    · rw [runF_transfer f line s _ _ hp h5] at hrun
      cases hrun
      exact htra _ _ (hnum _ _ hQ)
    by_cases h6 : (parseLine line).1.getD 0 "" = "Defer"
    · rw [runF_defer f line s _ _ hp h6] at hrun
      cases hrun
      exact hdef _ _ (hnum _ _ hQ)
    by_cases h7 : (parseLine line).1.getD 0 "" = "Execute"
    · by_cases hk : (strtolParse ((parseLine line).1.getD 1 "")).2 = "" ∧
          0 < (strtolParse ((parseLine line).1.getD 1 "")).1
      · rw [runF_execute f line s _ _ hp h7 hk.1 hk.2] at hrun
        have hfold : ∀ (l : List (Nat × String)) (st st2 : SessionState),
            dispatchFold f l st = some st2 → Q st → Q st2 := by
          intro l
          induction l with
          | nil =>
            intro st st2 h hq
            have : some st = some st2 := h
            cases this
            exact hq
          | cons p rest ihl =>
            obtain ⟨i, t⟩ := p
            intro st st2 h hq
            rw [dispatchFold_cons] at h
            rcases hr : runF f t {st with dispatched := st.dispatched ++ [i]} with _ | st3
            · rw [hr] at h; cases h
            · rw [hr] at h
              exact ihl st3 st2 h (ih t _ st3 hr (hdisp st i hq))
        exact hfold _ _ _ hrun (hcol _ _ (hnum _ _ hQ))
      · rw [runF_execute_badkey f line s _ _ hp h7 hk] at hrun
        cases hrun
        exact hnum _ _ hQ
    · rw [runF_noverb f line s _ _ hp h1 h2 h3 h4 h5 h6 h7] at hrun
      cases hrun
      exact hnum _ _ hQ

theorem runF_imRecieved_mono (f : Nat) (line : String) (s s2 : SessionState)
    (hrun : runF f line s = some s2) (h : s.imRecieved = true) : s2.imRecieved = true := by
  refine runF_preserves (fun st => st.imRecieved = true) ?_ ?_ ?_ ?_ ?_ ?_ ?_ ?_ ?_
    f line s s2 hrun h
  · intro st n hq; exact hq
  · intro st i hq; exact hq
  · intro a st hq; rw [connect_message_imRecieved]; exact hq
  · intro a st hq; exact im_message_imRecieved_mono a st hq
  · intro a st hq; rw [deliver_message_imRecieved]; exact hq
  · intro a st hq; rw [withdraw_message_imRecieved]; exact hq
  · intro a st hq; rw [transfer_message_imRecieved]; exact hq
  · intro a st hq; rw [defer_message_imRecieved]; exact hq
  · intro k st hq; exact hq

theorem im_duplicate_noop (f : Nat) (s : SessionState) (line ps nm : String)
    (hp : parseLine line = (["IM", ps, nm], 2)) (hport : verify_num ps ≠ 0)
    (hname : verify_name nm = nm) (hnm : nm ≠ "")
    (hdup : ∃ nb ∈ s.neighbours, nb.name = nm ∨ nb.portNo = verify_num ps) :
    runF (f+1) line s = some {s with numColons := 2} := by
  rw [runF_im f line s _ _ hp rfl]
  congr 1
  simp only [im_message]
  have hg1 : (["IM", ps, nm].getD 1 "") = ps := rfl
  have hg2 : (["IM", ps, nm].getD 2 "") = nm := rfl
  rw [hg1, hg2, hname]
  by_cases hrec : s.imRecieved = false
  · rw [if_pos ⟨fun h => h.elim hport hnm, trivial, hrec⟩]
    have hany : (s.neighbours.any (fun nb => nb.name = nm ∨ nb.portNo = verify_num ps))
        = true := by
      obtain ⟨nb, hmem, hor⟩ := hdup
      exact List.any_eq_true.2 ⟨nb, hmem, by simpa using hor⟩
    rw [if_pos hany]
  · rw [if_neg (fun h => hrec h.2.2)]

theorem clientLoopF_step (f : Nat) (m : String) (rest : List String) (cnt : Nat)
    (s s2 : SessionState) (hgate : ¬(1 < cnt ∧ ¬(s.imRecieved = true ∧ s.imSent = true)))
    (h : runF f m s = some s2) :
    clientLoopF f (m :: rest) cnt s = clientLoopF f rest (cnt + 1) s2 := by
  show (if 1 < cnt ∧ ¬(s.imRecieved = true ∧ s.imSent = true) then some (s, m :: rest)
    else
      match runF f m s with
      | none => none
      | some s2 => clientLoopF f rest (cnt + 1) s2) = clientLoopF f rest (cnt + 1) s2
  rw [if_neg hgate, h]

theorem clientLoopF_break (f : Nat) (m : String) (rest : List String) (cnt : Nat)
    (s : SessionState) (h1 : 1 < cnt) (h2 : s.imRecieved = false) :
    clientLoopF f (m :: rest) cnt s = some (s, m :: rest) := by
  show (if 1 < cnt ∧ ¬(s.imRecieved = true ∧ s.imSent = true) then some (s, m :: rest)
    else
      match runF f m s with
      | none => none
      | some s2 => clientLoopF f rest (cnt + 1) s2) = some (s, m :: rest)
  rw [if_pos ⟨h1, fun hc => by rw [h2] at hc; exact absurd hc.1 (by decide)⟩]

theorem gate_terminates (f : Nat) (x y z : String) (rest : List String)
    (s s1 s2 : SessionState) (h1 : runF f x s = some s1) (h2 : runF f y s1 = some s2)
    (hr : s2.imRecieved = false) :
    clientLoopF f (x :: y :: z :: rest) 0 s = some (s2, z :: rest) := by
  rw [clientLoopF_step f x (y :: z :: rest) 0 s s1 (by simp) h1]
  rw [clientLoopF_step f y (z :: rest) 1 s1 s2 (by simp) h2]
  exact clientLoopF_break f z rest 2 s2 (by decide) hr

/-- C5 counterexample: a session that receives a syntactically valid `IM`
whose port collides with a registered neighbour does NOT keep running: the
duplicate is not re-registered but `imRecieved` is also never set, so the
liveness gate breaks the read loop before the third following message (the
two trailing lines stay unconsumed), and the flag never flips at all. -/
theorem c5_duplicate_im_gate_kills :
    clientLoopF 2 ["IM:4000:gamma\n", "Deliver:1:g\n", "Withdraw:1:g\n", "Deliver:9:z\n"] 0
        {initS with neighbours := [NeighbourM.mk "beta" 4000]} =
      some ({initS with
              neighbours := [NeighbourM.mk "beta" 4000],
              resources := [Resource.mk "g" 1],
              numColons := 2},
            ["Withdraw:1:g\n", "Deliver:9:z\n"]) ∧
    ({initS with
      neighbours := [NeighbourM.mk "beta" 4000],
      resources := [Resource.mk "g" 1],
      numColons := 2} : SessionState).imRecieved = false := by
  decide

/-- C5 amended: on a valid duplicate `IM` the session does not re-register
the neighbour and leaves the whole state unchanged apart from the
`numColons` scratch — in particular `imRecieved` keeps its value, so a
session whose flag is still false is then terminated by the liveness gate
after two further processed messages; and `imRecieved` is monotone: once
true it stays true (so it flips at most once, on the first successful
registration). -/
theorem c5_duplicate_im_spec (f : Nat) (s : SessionState) :
    (∀ line ps nm, parseLine line = (["IM", ps, nm], 2) → verify_num ps ≠ 0 →
      verify_name nm = nm → nm ≠ "" →
      (∃ nb ∈ s.neighbours, nb.name = nm ∨ nb.portNo = verify_num ps) →
      runF (f+1) line s = some {s with numColons := 2}) ∧
    (∀ x y z rest s1 s2, runF f x s = some s1 → runF f y s1 = some s2 →
      s2.imRecieved = false →
      clientLoopF f (x :: y :: z :: rest) 0 s = some (s2, z :: rest)) ∧
    (∀ line s2, runF f line s = some s2 → s.imRecieved = true → s2.imRecieved = true) :=
  ⟨fun line ps nm h1 h2 h3 h4 h5 => im_duplicate_noop f s line ps nm h1 h2 h3 h4 h5,
   fun x y z rest s1 s2 h1 h2 h3 => gate_terminates f x y z rest s s1 s2 h1 h2 h3,
   fun line s2 h1 h2 => runF_imRecieved_mono f line s s2 h1 h2⟩

/-- C5 witness: the three parts evaluated on concrete sessions. -/
theorem c5_witness :
    runF 1 "IM:4000:gamma\n" {initS with neighbours := [NeighbourM.mk "beta" 4000]} =
      some {initS with neighbours := [NeighbourM.mk "beta" 4000], numColons := 2} ∧
    clientLoopF 1 ["Deliver:1:g\n", "Deliver:1:g\n", "Q\n"] 0 initS =
      some ({initS with resources := [Resource.mk "g" 2], numColons := 2}, ["Q\n"]) ∧
    ({initS with
      imRecieved := true,
      resources := [Resource.mk "g" 1],
      numColons := 2} : SessionState).imRecieved = true :=
  ⟨(c5_duplicate_im_spec 0 {initS with neighbours := [NeighbourM.mk "beta" 4000]}).1
      "IM:4000:gamma\n" "4000" "gamma" (by decide) (by decide) (by decide) (by decide)
      (by decide),
   (c5_duplicate_im_spec 1 initS).2.1 "Deliver:1:g\n" "Deliver:1:g\n" "Q\n" []
      {initS with resources := [Resource.mk "g" 1], numColons := 2}
      {initS with resources := [Resource.mk "g" 2], numColons := 2}
      (by decide) (by decide) (by decide),
   (c5_duplicate_im_spec 1 {initS with imRecieved := true}).2.2 "Deliver:1:g\n"
      {initS with imRecieved := true, resources := [Resource.mk "g" 1], numColons := 2}
      (by decide) (by decide)⟩

/-! ### Claims C6 and C10: Execute semantics -/

theorem connect_message_deferred (a : List String) (s : SessionState) :
    (connect_message a s).deferred = s.deferred := by
  simp only [connect_message]
  split <;> rfl

theorem connect_message_dispatched (a : List String) (s : SessionState) :
    (connect_message a s).dispatched = s.dispatched := by
  simp only [connect_message]
  split <;> rfl

theorem im_message_deferred (a : List String) (s : SessionState) :
    (im_message a s).deferred = s.deferred := by
  simp only [im_message]
  split
  · split <;> rfl
  · rfl

theorem im_message_dispatched (a : List String) (s : SessionState) :
    (im_message a s).dispatched = s.dispatched := by
  simp only [im_message]
  split
  · split <;> rfl
  · rfl

theorem deliver_message_deferred (a : List String) (s : SessionState) :
    (deliver_message a s).deferred = s.deferred := by
  simp only [deliver_message]
  split
  · split <;> rfl
  · rfl

theorem deliver_message_dispatched (a : List String) (s : SessionState) :
    (deliver_message a s).dispatched = s.dispatched := by
  simp only [deliver_message]
  split
  · split <;> rfl
  · rfl

theorem withdraw_message_deferred (a : List String) (s : SessionState) :
    (withdraw_message a s).deferred = s.deferred := by
  simp only [withdraw_message]
  split
  · split <;> rfl
  · rfl

theorem withdraw_message_dispatched (a : List String) (s : SessionState) :
    (withdraw_message a s).dispatched = s.dispatched := by
  simp only [withdraw_message]
  split
  · split <;> rfl
  · rfl

theorem transfer_message_deferred (a : List String) (s : SessionState) :
    (transfer_message a s).deferred = s.deferred := by
  simp only [transfer_message]
  rcases h : findNeighbour (a.getD 3 "") s.neighbours with _ | nb
  · rfl
  · show (withdraw_message _ _).deferred = s.deferred
    rw [withdraw_message_deferred]

theorem transfer_message_dispatched (a : List String) (s : SessionState) :
    (transfer_message a s).dispatched = s.dispatched := by
  simp only [transfer_message]
  rcases h : findNeighbour (a.getD 3 "") s.neighbours with _ | nb
  · rfl
  · show (withdraw_message _ _).dispatched = s.dispatched
    rw [withdraw_message_dispatched]

theorem defer_message_noop (a : List String) (s : SessionState)
    (h : defer_creator a = "") : defer_message a s = s := by
  simp only [defer_message, h]
  rw [if_neg (fun hc => hc.2.2 rfl)]

/-! ### The collection phase of Execute -/

theorem collectExecAux_spec (k : Int) :
    ∀ (l : List DeferM) (i0 : Nat),
      collectExecAux k l i0 =
        (((l.enumFrom i0).filter (fun p => p.2.key = k ∧ p.2.complete = false)).map
          (fun p => (p.1, p.2.args)),
         l.map (fun e => if e.key = k ∧ e.complete = false then {e with complete := true}
           else e)) := by
  intro l
  induction l with
  | nil => intro i0; rfl
  | cons e rest ih =>
    intro i0
    simp only [collectExecAux, ih (i0 + 1), List.enumFrom_cons, List.filter_cons,
      List.map_cons]
    by_cases h : e.key = k ∧ e.complete = false
    · simp [h]
    · simp [h]

theorem mark_getD (k : Int) (l : List DeferM) (j : Nat) :
    (l.map (fun e => if e.key = k ∧ e.complete = false then {e with complete := true}
      else e)).getD j dDefault =
      (if (l.getD j dDefault).key = k ∧ (l.getD j dDefault).complete = false
       then {l.getD j dDefault with complete := true} else l.getD j dDefault) := by
  rw [List.getD_eq_getElem?_getD, List.getD_eq_getElem?_getD, List.getElem?_map]
  rcases l[j]? with _ | e
  · rw [if_neg (fun hc => by cases dDefault with | mk a b c => cases hc.2)]
    rfl
  · simp

theorem collect_batch_mem (k : Int) :
    ∀ (l : List DeferM) (i0 : Nat) (p : Nat × String), p ∈ (collectExecAux k l i0).1 →
      ∃ j, j < l.length ∧ p.1 = i0 + j ∧ (l.getD j dDefault).args = p.2 ∧
        (l.getD j dDefault).key = k ∧ (l.getD j dDefault).complete = false := by
  intro l
  induction l with
  | nil => intro i0 p hp; cases hp
  | cons e rest ih =>
    intro i0 p hp
    simp only [collectExecAux] at hp
    by_cases h : e.key = k ∧ e.complete = false
    · rw [if_pos h] at hp
      rcases List.mem_cons.1 hp with hh | hh
      · exact ⟨0, by simp, by simp [hh], by simp [hh], h.1, h.2⟩
      · obtain ⟨j, hj, hpi, hargs, hkey, hcomp⟩ := ih (i0 + 1) p hh
        exact ⟨j + 1, by simpa using hj, by omega, hargs, hkey, hcomp⟩
    · rw [if_neg h] at hp
      obtain ⟨j, hj, hpi, hargs, hkey, hcomp⟩ := ih (i0 + 1) p hp
      exact ⟨j + 1, by simpa using hj, by omega, hargs, hkey, hcomp⟩

theorem collect_batch_lb (k : Int) :
    ∀ (l : List DeferM) (i0 : Nat) (i : Nat),
      i ∈ (collectExecAux k l i0).1.map Prod.fst → i0 ≤ i := by
  intro l i0 i hi
  rcases List.mem_map.1 hi with ⟨p, hp, hpe⟩
  obtain ⟨j, _, hpi, _, _, _⟩ := collect_batch_mem k l i0 p hp
  omega

theorem collect_batch_nodup (k : Int) :
    ∀ (l : List DeferM) (i0 : Nat), ((collectExecAux k l i0).1.map Prod.fst).Nodup := by
  intro l
  induction l with
  | nil => intro i0; exact List.nodup_nil
  | cons e rest ih =>
    intro i0
    simp only [collectExecAux]
    by_cases h : e.key = k ∧ e.complete = false
    · rw [if_pos h]
      simp only [List.map_cons]
      refine List.nodup_cons.2 ⟨?_, ih (i0 + 1)⟩
      intro hmem
      have := collect_batch_lb k rest (i0 + 1) i0 hmem
      omega
    · rw [if_neg h]
      exact ih (i0 + 1)

theorem DeferPres_of_deferred_eq {s s2 : SessionState} (h : s2.deferred = s.deferred) :
    DeferPres s s2 := by
  unfold DeferPres keyAt argsAt completeAt
  rw [h]
  exact ⟨rfl, fun j => ⟨rfl, rfl⟩, fun j hj => hj⟩

theorem DeferPres_trans {s1 s2 s3 : SessionState}
    (h1 : DeferPres s1 s2) (h2 : DeferPres s2 s3) : DeferPres s1 s3 := by
  obtain ⟨hl1, hp1, hm1⟩ := h1
  obtain ⟨hl2, hp2, hm2⟩ := h2
  exact ⟨hl2.trans hl1, fun j => ⟨(hp2 j).1.trans (hp1 j).1, (hp2 j).2.trans (hp1 j).2⟩,
    fun j hj => hm2 j (hm1 j hj)⟩

theorem mem_exists_index (l : List DeferM) (e : DeferM) (he : e ∈ l) :
    ∃ j, j < l.length ∧ l.getD j dDefault = e := by
  obtain ⟨⟨j, hj⟩, hget⟩ := List.mem_iff_get.1 he
  refine ⟨j, hj, ?_⟩
  rw [List.getD_eq_getElem?_getD, List.getElem?_eq_getElem hj]
  simpa using hget

theorem argsAt_index (s : SessionState) (j : Nat) (hj : j < s.deferred.length) :
    ∃ e ∈ s.deferred, e.args = argsAt s j := by
  refine ⟨s.deferred.get ⟨j, hj⟩, List.get_mem _ _ _, ?_⟩
  unfold argsAt
  rw [List.getD_eq_getElem?_getD, List.getElem?_eq_getElem hj]
  rfl

theorem DeferInv_transport {s s2 : SessionState} (hpres : DeferPres s s2)
    (hInv : DeferInv s) : DeferInv s2 := by
  intro e2 he2
  obtain ⟨j, hj, hget⟩ := mem_exists_index s2.deferred e2 he2
  have hjs : j < s.deferred.length := by rw [← hpres.1]; exact hj
  obtain ⟨e, he, hea⟩ := argsAt_index s j hjs
  have he2a : e2.args = argsAt s2 j := by
    unfold argsAt
    rw [hget]
  rw [he2a, (hpres.2.1 j).2, ← hea]
  exact hInv e he

theorem collectExec_deferred (k : Int) (s : SessionState) :
    (collectExec k s).2.deferred =
      s.deferred.map (fun e => if e.key = k ∧ e.complete = false then {e with complete := true}
        else e) := by
  simp [collectExec, collectExecAux_spec]

theorem collectExec_batch (k : Int) (s : SessionState) :
    (collectExec k s).1 =
      ((s.deferred.enumFrom 0).filter (fun p => p.2.key = k ∧ p.2.complete = false)).map
        (fun p => (p.1, p.2.args)) := by
  simp [collectExec, collectExecAux_spec]

theorem keyAt_collect (k : Int) (s : SessionState) (j : Nat) :
    keyAt (collectExec k s).2 j = keyAt s j := by
  unfold keyAt
  rw [collectExec_deferred, mark_getD]
  by_cases h : (s.deferred.getD j dDefault).key = k ∧
      (s.deferred.getD j dDefault).complete = false
  · rw [if_pos h]
  · rw [if_neg h]

theorem argsAt_collect (k : Int) (s : SessionState) (j : Nat) :
    argsAt (collectExec k s).2 j = argsAt s j := by
  unfold argsAt
  rw [collectExec_deferred, mark_getD]
  by_cases h : (s.deferred.getD j dDefault).key = k ∧
      (s.deferred.getD j dDefault).complete = false
  · rw [if_pos h]
  · rw [if_neg h]

theorem completeAt_collect (k : Int) (s : SessionState) (j : Nat) :
    completeAt (collectExec k s).2 j =
      (if keyAt s j = k ∧ completeAt s j = false then true else completeAt s j) := by
  unfold completeAt keyAt
  rw [collectExec_deferred, mark_getD]
  by_cases h : (s.deferred.getD j dDefault).key = k ∧
      (s.deferred.getD j dDefault).complete = false
  · rw [if_pos h, if_pos h]
  · rw [if_neg h, if_neg h]

theorem DeferPres_collect (k : Int) (s : SessionState) : DeferPres s (collectExec k s).2 := by
  refine ⟨?_, fun j => ⟨keyAt_collect k s j, argsAt_collect k s j⟩, ?_⟩
  · rw [collectExec_deferred]
    exact List.length_map _ _
  · intro j hj
    rw [completeAt_collect]
    by_cases h : keyAt s j = k ∧ completeAt s j = false
    · rw [if_pos h]
    · rw [if_neg h]
      exact hj

theorem dispatch_chunk (f : Nat)
    (IH : ∀ (line : String) (s s2 : SessionState), DeferInv s → noStoreLine line →
      runF f line s = some s2 → DeferPres s s2 ∧ ∃ nd, DispatchDelta s s2 nd) :
    ∀ (batch : List (Nat × String)) (st st2 : SessionState),
      DeferInv st →
      (∀ p ∈ batch, p.1 < st.deferred.length ∧ argsAt st p.1 = p.2 ∧
        completeAt st p.1 = true) →
      (batch.map Prod.fst).Nodup →
      dispatchFold f batch st = some st2 →
      DeferPres st st2 ∧
      ∃ nd, st2.dispatched = st.dispatched ++ nd ∧ nd.Nodup ∧
        List.Sublist (batch.map Prod.fst) nd ∧
        (∀ i ∈ nd, i < st.deferred.length ∧ completeAt st2 i = true ∧
          (i ∈ batch.map Prod.fst ∨ completeAt st i = false)) := by
  intro batch
  induction batch with
  | nil =>
    intro st st2 _ _ _ hfold
    have h : some st = some st2 := hfold
    cases h
    exact ⟨DeferPres_of_deferred_eq rfl,
      [], by simp, List.nodup_nil, List.nil_sublist _,
      fun i hi => absurd hi (List.not_mem_nil i)⟩
  | cons hd rest ihb =>
    obtain ⟨i1, t1⟩ := hd
    intro st st2 hInv hbatch hnodup hfold
    rw [dispatchFold_cons] at hfold
    rcases hr : runF f t1 {st with dispatched := st.dispatched ++ [i1]} with _ | stB
    · rw [hr] at hfold; cases hfold
    · rw [hr] at hfold
      have hfold2 : dispatchFold f rest stB = some st2 := hfold
      obtain ⟨hi1, ht1, hc1⟩ := hbatch (i1, t1) (List.mem_cons_self _ _)
      have hi1' : i1 < st.deferred.length := hi1
      have ht1' : argsAt st i1 = t1 := ht1
      have hc1' : completeAt st i1 = true := hc1
      obtain ⟨e, he, hea⟩ := argsAt_index st i1 hi1'
      have hnst : noStoreLine t1 := by
        rw [← ht1', ← hea]
        exact hInv e he
      have hInvA : DeferInv {st with dispatched := st.dispatched ++ [i1]} :=
        fun e2 he2 => hInv e2 he2
      obtain ⟨hpres1, nd1, hd1, hnd1, hm1⟩ := IH t1 _ stB hInvA hnst hr
      have hpresA : DeferPres st stB :=
        DeferPres_trans (DeferPres_of_deferred_eq rfl) hpres1
      have hnodup' : i1 ∉ rest.map Prod.fst ∧ (rest.map Prod.fst).Nodup := by
        rw [List.map_cons] at hnodup
        exact List.nodup_cons.1 hnodup
      have hbatch2 : ∀ p ∈ rest, p.1 < stB.deferred.length ∧ argsAt stB p.1 = p.2 ∧
          completeAt stB p.1 = true := by
        intro p hp
        obtain ⟨hpl, hpa, hpc⟩ := hbatch p (List.mem_cons_of_mem _ hp)
        exact ⟨by rw [hpresA.1]; exact hpl, by rw [(hpresA.2.1 p.1).2]; exact hpa,
          hpresA.2.2 p.1 hpc⟩
      obtain ⟨hpres2, nd2, hd2, hnd2, hsub2, hm2⟩ :=
        ihb stB st2 (DeferInv_transport hpresA hInv) hbatch2 hnodup'.2 hfold2
      refine ⟨DeferPres_trans hpresA hpres2, i1 :: (nd1 ++ nd2), ?_, ?_, ?_, ?_⟩
      · rw [hd2, hd1]
        simp
      · refine List.nodup_cons.2 ⟨?_, ?_⟩
        · intro hmem
          rcases List.mem_append.1 hmem with hx | hx
          · have hx2 : completeAt st i1 = false := (hm1 i1 hx).2.1
            simp [hc1'] at hx2
          · rcases (hm2 i1 hx).2.2 with hcase | hcase
            · exact hnodup'.1 hcase
            · have hT : completeAt stB i1 = true := hpresA.2.2 i1 hc1'
              simp [hT] at hcase
        · refine List.Nodup.append hnd1 hnd2 ?_
          intro x hx1 hx2
          have hxB : completeAt stB x = true := (hm1 x hx1).2.2
          rcases (hm2 x hx2).2.2 with hcase | hcase
          · rcases List.mem_map.1 hcase with ⟨p, hp, hpe⟩
            have hT := (hbatch p (List.mem_cons_of_mem _ hp)).2.2
            rw [hpe] at hT
            have hxf : completeAt st x = false := (hm1 x hx1).2.1
            simp [hT] at hxf
          · simp [hxB] at hcase
      · rw [List.map_cons]
        exact List.Sublist.cons₂ i1 (hsub2.trans (List.sublist_append_right nd1 nd2))
      · intro i hi
        rcases List.mem_cons.1 hi with rfl | hi2
        · exact ⟨hi1', hpres2.2.2 i (hpresA.2.2 i hc1'), Or.inl (by simp)⟩
        rcases List.mem_append.1 hi2 with hx | hx
        · exact ⟨(hm1 i hx).1, hpres2.2.2 i (hm1 i hx).2.2, Or.inr (hm1 i hx).2.1⟩
        · have h2 := hm2 i hx
          refine ⟨hpresA.1 ▸ h2.1, h2.2.1, ?_⟩
          rcases h2.2.2 with hcase | hcase
          · exact Or.inl (by rw [List.map_cons]; exact List.mem_cons_of_mem _ hcase)
          refine Or.inr ?_
          by_cases hst : completeAt st i = true
          · have hT := hpresA.2.2 i hst
            simp [hT] at hcase
          · simpa using hst

theorem runF_master :
    ∀ (f : Nat) (line : String) (s s2 : SessionState),
      DeferInv s → noStoreLine line → runF f line s = some s2 →
      DeferPres s s2 ∧ ∃ nd, DispatchDelta s s2 nd := by
  intro f
  induction f with
  | zero => intro line s s2 _ _ h; cases h
  | succ f ih =>
    intro line s s2 hInv hnst hrun
    have hp : parseLine line = ((parseLine line).1, (parseLine line).2) := rfl
    have hsimple : ∀ s3 : SessionState, s3.deferred = s.deferred →
        s3.dispatched = s.dispatched → DeferPres s s3 ∧ ∃ nd, DispatchDelta s s3 nd := by
      intro s3 h1 h2
      exact ⟨DeferPres_of_deferred_eq h1,
        [], by rw [h2, List.append_nil], List.nodup_nil,
        fun i hi => absurd hi (List.not_mem_nil i)⟩
    by_cases h1 : (parseLine line).1.getD 0 "" = "Connect"
    · rw [runF_connect f line s _ _ hp h1] at hrun
      cases hrun
      exact hsimple _ (by rw [connect_message_deferred]) (by rw [connect_message_dispatched])
    by_cases h2 : (parseLine line).1.getD 0 "" = "IM"
    · rw [runF_im f line s _ _ hp h2] at hrun
      cases hrun
      exact hsimple _ (by rw [im_message_deferred]) (by rw [im_message_dispatched])
    by_cases h3 : (parseLine line).1.getD 0 "" = "Deliver"
    · rw [runF_deliver f line s _ _ hp h3] at hrun
      cases hrun
      exact hsimple _ (by rw [deliver_message_deferred]) (by rw [deliver_message_dispatched])
    by_cases h4 : (parseLine line).1.getD 0 "" = "Withdraw"
    · rw [runF_withdraw f line s _ _ hp h4] at hrun
      cases hrun
      exact hsimple _ (by rw [withdraw_message_deferred]) (by rw [withdraw_message_dispatched])
    by_cases h5 : (parseLine line).1.getD 0 "" = "Transfer"
    · rw [runF_transfer f line s _ _ hp h5] at hrun
      cases hrun
      exact hsimple _ (by rw [transfer_message_deferred]) (by rw [transfer_message_dispatched])
    by_cases h6 : (parseLine line).1.getD 0 "" = "Defer"
    · rw [runF_defer f line s _ _ hp h6] at hrun
      cases hrun
      have hdc : defer_creator (parseLine line).1 = "" := hnst h6
      exact hsimple _ (by rw [defer_message_noop _ _ hdc]) (by rw [defer_message_noop _ _ hdc])
    by_cases h7 : (parseLine line).1.getD 0 "" = "Execute"
    · by_cases hk : (strtolParse ((parseLine line).1.getD 1 "")).2 = "" ∧
          0 < (strtolParse ((parseLine line).1.getD 1 "")).1
      · rw [runF_execute f line s _ _ hp h7 hk.1 hk.2] at hrun
        set k := (strtolParse ((parseLine line).1.getD 1 "")).1 with hkdef
        set nc := (parseLine line).2 with hncdef
        have hInvNC : DeferInv ({s with numColons := nc} : SessionState) :=
          fun e2 he2 => hInv e2 he2
        have hpresC : DeferPres ({s with numColons := nc} : SessionState)
            (collectExec k {s with numColons := nc}).2 := DeferPres_collect k _
        have hInvC : DeferInv (collectExec k {s with numColons := nc}).2 :=
          DeferInv_transport hpresC hInvNC
        have hbatchC : ∀ p ∈ (collectExec k {s with numColons := nc}).1,
            p.1 < (collectExec k {s with numColons := nc}).2.deferred.length ∧
            argsAt (collectExec k {s with numColons := nc}).2 p.1 = p.2 ∧
            completeAt (collectExec k {s with numColons := nc}).2 p.1 = true := by
          intro p hpm
          obtain ⟨j, hj, hpi, hargs, hkey, hcomp⟩ :=
            collect_batch_mem k s.deferred 0 p hpm
          have hpj : p.1 = j := by omega
          have hjlen : p.1 < s.deferred.length := by omega
          refine ⟨?_, ?_, ?_⟩
          · rw [hpresC.1]
            exact hjlen
          · rw [argsAt_collect, hpj]
            exact hargs
          · rw [completeAt_collect, hpj]
            rw [if_pos ⟨hkey, hcomp⟩]
        have hnodupC : ((collectExec k {s with numColons := nc}).1.map Prod.fst).Nodup :=
          collect_batch_nodup k s.deferred 0
        obtain ⟨hpres2, nd, hd, hnd, _, hm⟩ :=
          dispatch_chunk f ih (collectExec k {s with numColons := nc}).1
            (collectExec k {s with numColons := nc}).2 s2 hInvC hbatchC hnodupC hrun
        refine ⟨DeferPres_trans (DeferPres_trans (DeferPres_of_deferred_eq rfl) hpresC)
          hpres2, nd, ?_, hnd, ?_⟩
        · exact hd
        · intro i hi
          obtain ⟨hilen, hic, hior⟩ := hm i hi
          have hilen2 : i < s.deferred.length := by
            rw [hpresC.1] at hilen
            exact hilen
          refine ⟨hilen2, ?_, hic⟩
          rcases hior with hcase | hcase
          · rcases List.mem_map.1 hcase with ⟨p, hpm, hpe⟩
            obtain ⟨j, hj, hpi, hargs, hkey, hcomp⟩ :=
              collect_batch_mem k s.deferred 0 p hpm
            have : p.1 = j := by omega
            rw [← hpe, this]
            exact hcomp
          · rw [completeAt_collect] at hcase
            by_cases hcond : keyAt ({s with numColons := nc} : SessionState) i = k ∧
                completeAt ({s with numColons := nc} : SessionState) i = false
            · rw [if_pos hcond] at hcase
              cases hcase
            · rw [if_neg hcond] at hcase
              exact hcase
      · rw [runF_execute_badkey f line s _ _ hp h7 hk] at hrun
        cases hrun
        exact hsimple _ rfl rfl
    · rw [runF_noverb f line s _ _ hp h1 h2 h3 h4 h5 h6 h7] at hrun
      cases hrun
      exact hsimple _ rfl rfl

theorem collect_noop (k : Int) :
    ∀ (l : List DeferM) (i0 : Nat), (∀ e ∈ l, e.key = k → e.complete = true) →
      collectExecAux k l i0 = ([], l) := by
  intro l
  induction l with
  | nil => intro i0 _; rfl
  | cons e rest ih =>
    intro i0 hall
    simp only [collectExecAux,
      ih (i0 + 1) (fun x hx hk => hall x (List.mem_cons_of_mem _ hx) hk)]
    rw [if_neg (fun hc => by
      have h := hall e (List.mem_cons_self e rest) hc.1
      rw [h] at hc
      exact Bool.noConfusion hc.2)]

/-- C6: for any session and positive key k, a successful `Execute:k` re-dispatches,
in insertion (stored) order, exactly the deferred entries with key k and completed
flag false (the enum-filter batch), marking each completed; the deferred list keeps
its length, keys and stored texts, completion only grows, the newly dispatched
indices are distinct and include the batch in order, and an immediately repeated
`Execute:k` is a no-op (only the numColons scratch field is touched), so a
completed entry is never re-executed by a later Execute with the same key. -/
theorem c6_execute_spec (f : Nat) (s s2 : SessionState) (line ks : String) (k : Int)
    (hp : parseLine line = (["Execute", ks], 1))
    (hks : strtolParse ks = (k, "")) (hkpos : 0 < k)
    (hInv : DeferInv s) (hrun : runF (f+1) line s = some s2) :
    (collectExec k {s with numColons := 1}).1 =
      ((s.deferred.enum.filter (fun p => p.2.key = k ∧ p.2.complete = false)).map
        (fun p => (p.1, p.2.args))) ∧
    DeferPres s s2 ∧
    (∀ j, j < s2.deferred.length → keyAt s2 j = k → completeAt s2 j = true) ∧
    (∃ nd, DispatchDelta s s2 nd ∧
      List.Sublist ((collectExec k {s with numColons := 1}).1.map Prod.fst) nd) ∧
    runF (f+1) line s2 = some {s2 with numColons := 1} := by
  have hg1 : ((["Execute", ks] : List String).getD 1 "") = ks := rfl
  have hk1 : (strtolParse ((["Execute", ks] : List String).getD 1 "")).2 = "" := by
    rw [hg1, hks]
  have hk2 : 0 < (strtolParse ((["Execute", ks] : List String).getD 1 "")).1 := by
    rw [hg1, hks]
    exact hkpos
  have hkk : (strtolParse ((["Execute", ks] : List String).getD 1 "")).1 = k := by
    rw [hg1, hks]
  rw [runF_execute f line s _ _ hp rfl hk1 hk2, hkk] at hrun
  have hInvNC : DeferInv ({s with numColons := 1} : SessionState) :=
    fun e2 he2 => hInv e2 he2
  have hpresC : DeferPres ({s with numColons := 1} : SessionState)
      (collectExec k {s with numColons := 1}).2 := DeferPres_collect k _
  have hInvC : DeferInv (collectExec k {s with numColons := 1}).2 :=
    DeferInv_transport hpresC hInvNC
  have hbatchC : ∀ p ∈ (collectExec k {s with numColons := 1}).1,
      p.1 < (collectExec k {s with numColons := 1}).2.deferred.length ∧
      argsAt (collectExec k {s with numColons := 1}).2 p.1 = p.2 ∧
      completeAt (collectExec k {s with numColons := 1}).2 p.1 = true := by
    intro p hpm
    obtain ⟨j, hj, hpi, hargs, hkey, hcomp⟩ := collect_batch_mem k s.deferred 0 p hpm
    have hpj : p.1 = j := by omega
    refine ⟨?_, ?_, ?_⟩
    · rw [hpresC.1]
      show p.1 < s.deferred.length
      omega
    · rw [argsAt_collect, hpj]
      exact hargs
    · rw [completeAt_collect, hpj]
      rw [if_pos ⟨hkey, hcomp⟩]
  have hnodupC : ((collectExec k {s with numColons := 1}).1.map Prod.fst).Nodup :=
    collect_batch_nodup k s.deferred 0
  obtain ⟨hpres2, nd, hd, hnd, hsub, hm⟩ :=
    dispatch_chunk f (runF_master f) (collectExec k {s with numColons := 1}).1
      (collectExec k {s with numColons := 1}).2 s2 hInvC hbatchC hnodupC hrun
  have hpresS : DeferPres s s2 :=
    DeferPres_trans (DeferPres_trans (DeferPres_of_deferred_eq rfl) hpresC) hpres2
  have hdone : ∀ j, j < s2.deferred.length → keyAt s2 j = k → completeAt s2 j = true := by
    intro j hjl hkj
    have hkj2 : keyAt s j = k := by rw [← (hpresS.2.1 j).1]; exact hkj
    by_cases hcj : completeAt s j = true
    · exact hpresS.2.2 j hcj
    · have hcf : completeAt s j = false := by simpa using hcj
      have hmk : completeAt (collectExec k {s with numColons := 1}).2 j = true := by
        rw [completeAt_collect]
        rw [if_pos ⟨hkj2, hcf⟩]
      exact hpres2.2.2 j hmk
  refine ⟨by rw [collectExec_batch]; rfl, hpresS, hdone, ?_, ?_⟩
  · refine ⟨nd, ⟨hd, hnd, ?_⟩, hsub⟩
    intro i hi
    obtain ⟨hilen, hic, hior⟩ := hm i hi
    have hilen2 : i < s.deferred.length := by
      rw [hpresC.1] at hilen
      exact hilen
    refine ⟨hilen2, ?_, hic⟩
    rcases hior with hcase | hcase
    · rcases List.mem_map.1 hcase with ⟨p, hpm, hpe⟩
      obtain ⟨j, hj, hpi, hargs, hkey, hcomp⟩ := collect_batch_mem k s.deferred 0 p hpm
      have hpj : p.1 = j := by omega
      rw [← hpe, hpj]
      exact hcomp
    · rw [completeAt_collect] at hcase
      by_cases hcond : keyAt ({s with numColons := 1} : SessionState) i = k ∧
          completeAt ({s with numColons := 1} : SessionState) i = false
      · rw [if_pos hcond] at hcase
        cases hcase
      · rw [if_neg hcond] at hcase
        exact hcase
  · rw [runF_execute f line s2 _ _ hp rfl hk1 hk2]
    have hall : ∀ e ∈ s2.deferred, e.key = k → e.complete = true := by
      intro e he hek
      obtain ⟨j, hj, hget⟩ := mem_exists_index s2.deferred e he
      have hk3 : keyAt s2 j = k := by
        unfold keyAt
        rw [hget]
        exact hek
      have := hdone j hj hk3
      unfold completeAt at this
      rw [hget] at this
      exact this
    have hcn : collectExecAux k ({s2 with numColons := 1} : SessionState).deferred 0 =
        ([], s2.deferred) := collect_noop k s2.deferred 0 hall
    show dispatchFold f
        (collectExec (strtolParse ((["Execute", ks] : List String).getD 1 "")).1
          {s2 with numColons := 1}).1
        (collectExec (strtolParse ((["Execute", ks] : List String).getD 1 "")).1
          {s2 with numColons := 1}).2 = some {s2 with numColons := 1}
    rw [hkk]
    have hb : (collectExec k ({s2 with numColons := 1} : SessionState)).1 = [] := by
      show (collectExecAux k ({s2 with numColons := 1} : SessionState).deferred 0).1 = []
      rw [hcn]
    have hst : (collectExec k ({s2 with numColons := 1} : SessionState)).2 =
        {s2 with numColons := 1} := by
      show ({({s2 with numColons := 1} : SessionState) with
        deferred := (collectExecAux k ({s2 with numColons := 1} :
          SessionState).deferred 0).2}) = ({s2 with numColons := 1} : SessionState)
      rw [hcn]
    rw [hb, hst]
    rfl

/-- C10: within a single processing of `Execute:k`, the run factors as the dispatch
fold applied to the state `(collectExec k ...).2` in which every key-k incomplete
entry has already been marked completed — marking happens before any re-dispatch —
and the indices dispatched by the whole Execute are pairwise distinct, so no entry
of the batch can run twice even if a re-dispatched command itself triggers
dispatch. -/
theorem c10_marks_before_dispatch (f : Nat) (s s2 : SessionState) (line ks : String) (k : Int)
    (hp : parseLine line = (["Execute", ks], 1))
    (hks : strtolParse ks = (k, "")) (hkpos : 0 < k)
    (hInv : DeferInv s) (hrun : runF (f+1) line s = some s2) :
    runF (f+1) line s =
      dispatchFold f (collectExec k {s with numColons := 1}).1
        (collectExec k {s with numColons := 1}).2 ∧
    (∀ j, keyAt (collectExec k {s with numColons := 1}).2 j = k →
      completeAt (collectExec k {s with numColons := 1}).2 j = true) ∧
    (∃ nd, s2.dispatched = s.dispatched ++ nd ∧ nd.Nodup) := by
  have hg1 : ((["Execute", ks] : List String).getD 1 "") = ks := rfl
  have hk1 : (strtolParse ((["Execute", ks] : List String).getD 1 "")).2 = "" := by
    rw [hg1, hks]
  have hk2 : 0 < (strtolParse ((["Execute", ks] : List String).getD 1 "")).1 := by
    rw [hg1, hks]
    exact hkpos
  have hkk : (strtolParse ((["Execute", ks] : List String).getD 1 "")).1 = k := by
    rw [hg1, hks]
  refine ⟨?_, ?_, ?_⟩
  · rw [runF_execute f line s _ _ hp rfl hk1 hk2, hkk]
  · intro j hkj
    have hkj2 : keyAt ({s with numColons := 1} : SessionState) j = k := by
      rw [← keyAt_collect k ({s with numColons := 1} : SessionState) j]
      exact hkj
    rw [completeAt_collect]
    by_cases hcj : completeAt ({s with numColons := 1} : SessionState) j = false
    · rw [if_pos ⟨hkj2, hcj⟩]
    · rw [if_neg (fun hc => hcj hc.2)]
      simpa using hcj
  · have hnst : noStoreLine line := by
      intro h
      rw [hp] at h
      have h2 : ("Execute" : String) = "Defer" := h
      exact absurd h2 (by decide)
    obtain ⟨_, nd, hd, hnd, _⟩ := runF_master (f+1) line s s2 hInv hnst hrun
    exact ⟨nd, hd, hnd⟩

theorem c6_witness :
    (collectExec 1 {({initS with
        deferred := [DeferM.mk 1 "Deliver:2:bolt\n" false, DeferM.mk 2 "Withdraw:1:x\n" false,
          DeferM.mk 1 "Deliver:3:bolt\n" false]} : SessionState) with numColons := 1}).1 =
      ((({initS with
        deferred := [DeferM.mk 1 "Deliver:2:bolt\n" false, DeferM.mk 2 "Withdraw:1:x\n" false,
          DeferM.mk 1 "Deliver:3:bolt\n" false]} : SessionState).deferred.enum.filter
            (fun p => p.2.key = 1 ∧ p.2.complete = false)).map
          (fun p => (p.1, p.2.args))) ∧
    DeferPres
      {initS with
        deferred := [DeferM.mk 1 "Deliver:2:bolt\n" false, DeferM.mk 2 "Withdraw:1:x\n" false,
          DeferM.mk 1 "Deliver:3:bolt\n" false]}
      {initS with
        resources := [Resource.mk "bolt" 5],
        numColons := 2,
        deferred := [DeferM.mk 1 "Deliver:2:bolt\n" true, DeferM.mk 2 "Withdraw:1:x\n" false,
          DeferM.mk 1 "Deliver:3:bolt\n" true],
        dispatched := [0, 2]} ∧
    (∀ j, j < ({initS with
        resources := [Resource.mk "bolt" 5],
        numColons := 2,
        deferred := [DeferM.mk 1 "Deliver:2:bolt\n" true, DeferM.mk 2 "Withdraw:1:x\n" false,
          DeferM.mk 1 "Deliver:3:bolt\n" true],
        dispatched := [0, 2]} : SessionState).deferred.length →
      keyAt {initS with
        resources := [Resource.mk "bolt" 5],
        numColons := 2,
        deferred := [DeferM.mk 1 "Deliver:2:bolt\n" true, DeferM.mk 2 "Withdraw:1:x\n" false,
          DeferM.mk 1 "Deliver:3:bolt\n" true],
        dispatched := [0, 2]} j = 1 →
      completeAt {initS with
        resources := [Resource.mk "bolt" 5],
        numColons := 2,
        deferred := [DeferM.mk 1 "Deliver:2:bolt\n" true, DeferM.mk 2 "Withdraw:1:x\n" false,
          DeferM.mk 1 "Deliver:3:bolt\n" true],
        dispatched := [0, 2]} j = true) ∧
    (∃ nd, DispatchDelta
        {initS with
          deferred := [DeferM.mk 1 "Deliver:2:bolt\n" false, DeferM.mk 2 "Withdraw:1:x\n" false,
            DeferM.mk 1 "Deliver:3:bolt\n" false]}
        {initS with
          resources := [Resource.mk "bolt" 5],
          numColons := 2,
          deferred := [DeferM.mk 1 "Deliver:2:bolt\n" true, DeferM.mk 2 "Withdraw:1:x\n" false,
            DeferM.mk 1 "Deliver:3:bolt\n" true],
          dispatched := [0, 2]} nd ∧
      List.Sublist ((collectExec 1 {({initS with
        deferred := [DeferM.mk 1 "Deliver:2:bolt\n" false, DeferM.mk 2 "Withdraw:1:x\n" false,
          DeferM.mk 1 "Deliver:3:bolt\n" false]} : SessionState) with
            numColons := 1}).1.map Prod.fst) nd) ∧
    runF 3 "Execute:1\n"
      {initS with
        resources := [Resource.mk "bolt" 5],
        numColons := 2,
        deferred := [DeferM.mk 1 "Deliver:2:bolt\n" true, DeferM.mk 2 "Withdraw:1:x\n" false,
          DeferM.mk 1 "Deliver:3:bolt\n" true],
        dispatched := [0, 2]} =
      some {({initS with
        resources := [Resource.mk "bolt" 5],
        numColons := 2,
        deferred := [DeferM.mk 1 "Deliver:2:bolt\n" true, DeferM.mk 2 "Withdraw:1:x\n" false,
          DeferM.mk 1 "Deliver:3:bolt\n" true],
        dispatched := [0, 2]} : SessionState) with numColons := 1} :=
  c6_execute_spec 2
    {initS with
      deferred := [DeferM.mk 1 "Deliver:2:bolt\n" false, DeferM.mk 2 "Withdraw:1:x\n" false,
        DeferM.mk 1 "Deliver:3:bolt\n" false]}
    {initS with
      resources := [Resource.mk "bolt" 5],
      numColons := 2,
      deferred := [DeferM.mk 1 "Deliver:2:bolt\n" true, DeferM.mk 2 "Withdraw:1:x\n" false,
        DeferM.mk 1 "Deliver:3:bolt\n" true],
      dispatched := [0, 2]}
    "Execute:1\n" "1" 1 (by decide) (by decide) (by decide) (by decide) (by decide)

theorem c10_witness :
    runF 2 "Execute:5\n"
        {initS with deferred := [DeferM.mk 5 "Deliver:1:gem\n" false]} =
      dispatchFold 1
        (collectExec 5 {({initS with deferred := [DeferM.mk 5 "Deliver:1:gem\n" false]} :
          SessionState) with numColons := 1}).1
        (collectExec 5 {({initS with deferred := [DeferM.mk 5 "Deliver:1:gem\n" false]} :
          SessionState) with numColons := 1}).2 ∧
    (∀ j, keyAt (collectExec 5 {({initS with
        deferred := [DeferM.mk 5 "Deliver:1:gem\n" false]} : SessionState) with
          numColons := 1}).2 j = 5 →
      completeAt (collectExec 5 {({initS with
        deferred := [DeferM.mk 5 "Deliver:1:gem\n" false]} : SessionState) with
          numColons := 1}).2 j = true) ∧
    (∃ nd, ({initS with
        resources := [Resource.mk "gem" 1],
        numColons := 2,
        deferred := [DeferM.mk 5 "Deliver:1:gem\n" true],
        dispatched := [0]} : SessionState).dispatched =
      ({initS with deferred := [DeferM.mk 5 "Deliver:1:gem\n" false]} :
        SessionState).dispatched ++ nd ∧ nd.Nodup) :=
  c10_marks_before_dispatch 1
    {initS with deferred := [DeferM.mk 5 "Deliver:1:gem\n" false]}
    {initS with
      resources := [Resource.mk "gem" 1],
      numColons := 2,
      deferred := [DeferM.mk 5 "Deliver:1:gem\n" true],
      dispatched := [0]}
    "Execute:5\n" "5" 5 (by decide) (by decide) (by decide) (by decide) (by decide)
